import Mathlib

/-!
Verification of the security-key-cached decryption pipeline of the castle
proxy client (src/unnamed/part_000, entry points re-exported to the api/
handlers).

The JavaScript source is shallowly embedded:

* bytes are natural numbers kept below 256 (a well-formedness predicate is
  carried where an operation needs it);
* the injected clock is an integer millisecond timestamp, the injected
  upstream fetch is a value describing the single response the network
  would deliver, and the process-wide mutable cache is threaded
  explicitly, so every stateful operation returns its result together
  with the updated cache and the number of network fetches it issued;
* fallible operations return Except / Option values mirroring the
  exceptions the JavaScript code can throw.

Node-specific library semantics that the source relies on are embedded
faithfully where they decide a claim: the lenient, never-throwing base64
decoder used by Buffer.from(s, "base64"), and the one-shot WHATWG fetch
response body (a second read of a consumed body fails with a TypeError).
-/

namespace Castle

/-! ## Bytes -/

/-- A well-formed byte list: every entry is below 256. -/
def BytesWf (bs : List Nat) : Prop := ∀ b ∈ bs, b < 256

instance : DecidablePred BytesWf := fun bs =>
  List.decidableBAll (fun b => b < 256) bs

/-- ASCII whitespace bytes, the fragment of JavaScript trimming and JSON
whitespace that the byte-level model covers. -/
def isWsByte (b : Nat) : Bool := b = 32 ∨ b = 9 ∨ b = 10 ∨ b = 13

/-- Byte-level rendering of JavaScript String.prototype.trim: drop ASCII
whitespace from both ends. -/
def trimBytes (bs : List Nat) : List Nat :=
  ((bs.dropWhile isWsByte).reverse.dropWhile isWsByte).reverse

/-! ## Node's base64 decoder

Buffer.from(s, "base64") never throws: it accepts both the standard and the
URL-safe alphabet, ignores every character outside the alphabet (including
the padding sign), and decodes a trailing group of two or three sextets to
one or two bytes. -/

/-- Sextet value of one base64 alphabet character, none for characters the
decoder ignores. -/
def b64CharVal (c : Char) : Option Nat :=
  if 65 ≤ c.toNat ∧ c.toNat ≤ 90 then some (c.toNat - 65)
  else if 97 ≤ c.toNat ∧ c.toNat ≤ 122 then some (c.toNat - 97 + 26)
  else if 48 ≤ c.toNat ∧ c.toNat ≤ 57 then some (c.toNat - 48 + 52)
  else if c.toNat = 43 ∨ c.toNat = 45 then some 62
  else if c.toNat = 47 ∨ c.toNat = 95 then some 63
  else none

/-- Reassemble bytes from a list of sextets, four sextets to three bytes,
with Node's handling of a short trailing group. -/
def b64SextetsToBytes : List Nat → List Nat
  | a :: b :: c :: d :: rest =>
      (a * 4 + b / 16) :: ((b % 16) * 16 + c / 4) :: ((c % 4) * 64 + d) ::
        b64SextetsToBytes rest
  | [a, b] => [a * 4 + b / 16]
  | [a, b, c] => [a * 4 + b / 16, (b % 16) * 16 + c / 4]
  | _ => []

/-- Node's lenient base64 decode: collect the sextets of the characters
that are in the alphabet and reassemble bytes. Total on every string. -/
def nodeB64Decode (s : String) : List Nat :=
  b64SextetsToBytes (s.data.filterMap b64CharVal)

/-- Standard base64 alphabet character (for stating which inputs are
well-formed base64; the source itself never checks this). -/
def isB64Char (c : Char) : Bool := (b64CharVal c).isSome

/-- Well-formed (canonical, padded) base64: groups of four alphabet
characters, with the last group allowed two or three characters followed
by padding. Used only to state what a malformed input is. -/
def strictBase64Wf (s : String) : Bool :=
  (s.length % 4 = 0) &&
    (match (s.data.takeWhile isB64Char, s.data.dropWhile isB64Char) with
      | (body, tail) =>
          (tail = [] ∨ tail = ['='] ∨ tail = ['=', '=']) &&
            (body.length + tail.length) % 4 = 0 &&
            body.length % 4 ≠ 1)

/-! ## Key derivation (deriveKeyFromSec) -/

/-- ASCII bytes of the static suffix secret "T!BgJB" (the CASTLE_SUFFIX
default). -/
def SUFFIX_BYTES : List Nat := [84, 33, 66, 103, 74, 66]

/-- Embedding of deriveKeyFromSec: decode the security key from base64,
append the suffix bytes, right-pad with zero bytes below 16, truncate
above 16. Total, exactly like the source (Buffer.from never throws). -/
def deriveKeyFromSec (secB64 : String) : List Nat :=
  let apiKey := nodeB64Decode secB64
  let keyMaterial := apiKey ++ SUFFIX_BYTES
  if keyMaterial.length < 16 then
    keyMaterial ++ List.replicate (16 - keyMaterial.length) 0
  else if keyMaterial.length > 16 then
    keyMaterial.take 16
  else
    keyMaterial

/-! ## KeyStore (SECURITY_CACHE and fetchSecurityKey) -/

/-- One parsed JSON body of the key endpoint as far as fetchSecurityKey
inspects it: the internal code field (none when absent) and the data
field (none when absent). A body that parses to something that is not an
object is covered by a payload whose two fields are absent. -/
structure KeyPayload where
  code : Option Int
  data : Option String
deriving DecidableEq, Repr

/-- The single upstream response the injected fetch would deliver:
whether it is an HTTP-level success, and the result of parsing its body
as JSON (none when parsing fails; fetchSecurityKey catches that to
null). -/
structure UpstreamResponse where
  httpOk : Bool
  body : Option KeyPayload
deriving DecidableEq, Repr

/-- The process-wide SECURITY_CACHE: a nullable cached key value and the
millisecond timestamp of its fetch (0 initially). -/
structure KeyCache where
  value : Option String
  fetchedAt : Int
deriving DecidableEq, Repr

/-- The initial cache: value null, fetchedAt 0. -/
def initialCache : KeyCache := { value := none, fetchedAt := 0 }

/-- SECURITY_TTL_MS = 10 * 60 * 1000. -/
def SECURITY_TTL_MS : Int := 10 * 60 * 1000

/-- JavaScript truthiness of a nullable string: null and the empty string
are falsy. -/
def jsTruthy : Option String → Bool
  | none => false
  | some s => s ≠ ""

/-- The error thrown by fetchSecurityKey on an unexpected response,
carrying the parsed payload (null included) for diagnostics. -/
inductive KeyError where
  | upstream (payload : Option KeyPayload)
deriving DecidableEq, Repr

instance {ε α : Type} [DecidableEq ε] [DecidableEq α] : DecidableEq (Except ε α) :=
  fun x y =>
    match x, y with
    | .ok a, .ok b => decidable_of_iff (a = b) (by simp)
    | .error a, .error b => decidable_of_iff (a = b) (by simp)
    | .ok _, .error _ => isFalse (by simp)
    | .error _, .ok _ => isFalse (by simp)

/-- Result of one fetchSecurityKey call: the returned key or the thrown
error, the cache after the call, and how many network fetches the call
issued. -/
structure FetchOutcome where
  result : Except KeyError String
  cache : KeyCache
  fetches : Nat
deriving DecidableEq, Repr

/-- Embedding of fetchSecurityKey with injected clock and fetch: on a
truthy cached value younger than the TTL return it without fetching;
otherwise fetch once, and succeed exactly when the parsed body is
non-null with code 200 and a truthy data field, replacing the cached
value and timestamp; any other body shape throws and leaves the cache
unchanged. The HTTP status of the response is never consulted. -/
def fetchSecurityKey (now : Int) (resp : UpstreamResponse) (c : KeyCache) :
    FetchOutcome :=
  if jsTruthy c.value ∧ now - c.fetchedAt < SECURITY_TTL_MS then
    { result := .ok (c.value.getD ""), cache := c, fetches := 0 }
  else
    match resp.body with
    | none => { result := .error (.upstream none), cache := c, fetches := 1 }
    | some p =>
        if p.code = some 200 ∧ jsTruthy p.data then
          { result := .ok (p.data.getD "")
            cache := { value := p.data, fetchedAt := now }
            fetches := 1 }
        else
          { result := .error (.upstream (some p)), cache := c, fetches := 1 }

/-! ## The aes-128-cbc primitive

decryptB64 calls createDecipheriv("aes-128-cbc", key, key) from Node's
crypto module. The cipher itself is library code outside the repository;
it is embedded here as the AES-128 block cipher of FIPS-197 (GF(256)
arithmetic, algebraic S-box, key expansion, ten rounds), in CBC mode with
PKCS#7 padding, so that the decryption pipeline's behaviour is the
source's. Bytes are naturals below 256. -/

/-- Multiplication by x in GF(256) modulo the AES polynomial x^8 + x^4 +
x^3 + x + 1 (0x11b). -/
def xtime (b : Nat) : Nat := if b < 128 then 2 * b else (2 * b) % 256 ^^^ 27

/-- Russian-peasant GF(256) multiplication over the 8 bits of the first
factor. -/
def gmulAux : Nat → Nat → Nat → Nat
  | 0, _, _ => 0
  | k+1, a, b => (if a % 2 = 1 then b else 0) ^^^ gmulAux k (a / 2) (xtime b)

/-- GF(256) product of two bytes. -/
def gmul (a b : Nat) : Nat := gmulAux 8 a b

/-- Square-and-multiply GF(256) power with enough fuel for byte
exponents. -/
def gpowAux : Nat → Nat → Nat → Nat
  | 0, _, _ => 1
  | f+1, b, n =>
      if n = 0 then 1
      else
        let h := gpowAux f b (n / 2)
        let hh := gmul h h
        if n % 2 = 1 then gmul b hh else hh

/-- GF(256) power of a byte by an exponent below 256. -/
def gpow (b n : Nat) : Nat := gpowAux 8 b n

/-- Left rotation of an 8-bit value. -/
def rotl (x k : Nat) : Nat := (x * 2 ^ k) % 256 ^^^ x / 2 ^ (8 - k)

/-- The AES S-box (FIPS-197 5.1.1): multiplicative inverse (x^254, with 0
mapped to 0) followed by the affine transformation. -/
def sboxOf (b : Nat) : Nat :=
  let i := gpow b 254
  i ^^^ rotl i 1 ^^^ rotl i 2 ^^^ rotl i 3 ^^^ rotl i 4 ^^^ 99

/-- The inverse AES S-box: inverse affine transformation followed by the
multiplicative inverse. -/
def invSboxOf (b : Nat) : Nat :=
  gpow (rotl b 1 ^^^ rotl b 3 ^^^ rotl b 6 ^^^ 5) 254

/-- A 16-byte AES state or round key, bytes in the order the 16-byte
input fills the state (column-major). -/
structure B16 where
  b0 : Nat
  b1 : Nat
  b2 : Nat
  b3 : Nat
  b4 : Nat
  b5 : Nat
  b6 : Nat
  b7 : Nat
  b8 : Nat
  b9 : Nat
  b10 : Nat
  b11 : Nat
  b12 : Nat
  b13 : Nat
  b14 : Nat
  b15 : Nat
deriving DecidableEq, Repr

/-- The all-zero state. -/
def zeroB16 : B16 := ⟨0, 0, 0, 0, 0, 0, 0, 0, 0, 0, 0, 0, 0, 0, 0, 0⟩

/-- Every byte of the state is below 256. -/
def wfB16 (s : B16) : Prop :=
  s.b0 < 256 ∧ s.b1 < 256 ∧ s.b2 < 256 ∧ s.b3 < 256
    ∧ s.b4 < 256 ∧ s.b5 < 256 ∧ s.b6 < 256 ∧ s.b7 < 256
    ∧ s.b8 < 256 ∧ s.b9 < 256 ∧ s.b10 < 256 ∧ s.b11 < 256
    ∧ s.b12 < 256 ∧ s.b13 < 256 ∧ s.b14 < 256 ∧ s.b15 < 256

/-- Apply a byte function to every byte of the state. -/
def mapB16 (f : Nat → Nat) (s : B16) : B16 :=
  ⟨f s.b0, f s.b1, f s.b2, f s.b3, f s.b4, f s.b5, f s.b6, f s.b7,
   f s.b8, f s.b9, f s.b10, f s.b11, f s.b12, f s.b13, f s.b14, f s.b15⟩

/-- Bytewise xor of two states. -/
def xorB16 (a b : B16) : B16 :=
  ⟨a.b0 ^^^ b.b0, a.b1 ^^^ b.b1, a.b2 ^^^ b.b2, a.b3 ^^^ b.b3,
   a.b4 ^^^ b.b4, a.b5 ^^^ b.b5, a.b6 ^^^ b.b6, a.b7 ^^^ b.b7,
   a.b8 ^^^ b.b8, a.b9 ^^^ b.b9, a.b10 ^^^ b.b10, a.b11 ^^^ b.b11,
   a.b12 ^^^ b.b12, a.b13 ^^^ b.b13, a.b14 ^^^ b.b14, a.b15 ^^^ b.b15⟩

/-- SubBytes. -/
def subBytesB (s : B16) : B16 := mapB16 sboxOf s

/-- InvSubBytes. -/
def invSubBytesB (s : B16) : B16 := mapB16 invSboxOf s

/-- ShiftRows: row r of the column-major state rotates left by r. -/
def shiftRowsB (s : B16) : B16 :=
  ⟨s.b0, s.b5, s.b10, s.b15, s.b4, s.b9, s.b14, s.b3,
   s.b8, s.b13, s.b2, s.b7, s.b12, s.b1, s.b6, s.b11⟩

/-- InvShiftRows: row r rotates right by r. -/
def invShiftRowsB (s : B16) : B16 :=
  ⟨s.b0, s.b13, s.b10, s.b7, s.b4, s.b1, s.b14, s.b11,
   s.b8, s.b5, s.b2, s.b15, s.b12, s.b9, s.b6, s.b3⟩

/-- MixColumns on one column. -/
def mixCol (a b c d : Nat) : Nat × Nat × Nat × Nat :=
  (gmul 2 a ^^^ gmul 3 b ^^^ c ^^^ d,
   a ^^^ gmul 2 b ^^^ gmul 3 c ^^^ d,
   a ^^^ b ^^^ gmul 2 c ^^^ gmul 3 d,
   gmul 3 a ^^^ b ^^^ c ^^^ gmul 2 d)

/-- InvMixColumns on one column. -/
def invMixCol (e f g h : Nat) : Nat × Nat × Nat × Nat :=
  (gmul 14 e ^^^ gmul 11 f ^^^ gmul 13 g ^^^ gmul 9 h,
   gmul 9 e ^^^ gmul 14 f ^^^ gmul 11 g ^^^ gmul 13 h,
   gmul 13 e ^^^ gmul 9 f ^^^ gmul 14 g ^^^ gmul 11 h,
   gmul 11 e ^^^ gmul 13 f ^^^ gmul 9 g ^^^ gmul 14 h)

/-- MixColumns over the four columns of the state. -/
def mixColumnsB (s : B16) : B16 :=
  match mixCol s.b0 s.b1 s.b2 s.b3, mixCol s.b4 s.b5 s.b6 s.b7,
      mixCol s.b8 s.b9 s.b10 s.b11, mixCol s.b12 s.b13 s.b14 s.b15 with
  | (c0, c1, c2, c3), (c4, c5, c6, c7), (c8, c9, c10, c11), (c12, c13, c14, c15) =>
      ⟨c0, c1, c2, c3, c4, c5, c6, c7, c8, c9, c10, c11, c12, c13, c14, c15⟩

/-- InvMixColumns over the four columns of the state. -/
def invMixColumnsB (s : B16) : B16 :=
  match invMixCol s.b0 s.b1 s.b2 s.b3, invMixCol s.b4 s.b5 s.b6 s.b7,
      invMixCol s.b8 s.b9 s.b10 s.b11, invMixCol s.b12 s.b13 s.b14 s.b15 with
  | (c0, c1, c2, c3), (c4, c5, c6, c7), (c8, c9, c10, c11), (c12, c13, c14, c15) =>
      ⟨c0, c1, c2, c3, c4, c5, c6, c7, c8, c9, c10, c11, c12, c13, c14, c15⟩

/-- Round constant bytes: 1, then repeated xtime. -/
def rcVal : Nat → Nat
  | 0 => 1
  | i+1 => xtime (rcVal i)

/-- Bytewise xor of two four-byte words. -/
def xorW (a b : List Nat) : List Nat := List.zipWith (fun x y => x ^^^ y) a b

/-- RotWord of the key schedule. -/
def rotWord : List Nat → List Nat
  | a :: rest => rest ++ [a]
  | [] => []

/-- SubWord of the key schedule. -/
def subWord (w : List Nat) : List Nat := w.map sboxOf

/-- Generate the next n key-schedule words (FIPS-197 5.2). -/
def expandWords : Nat → List (List Nat) → List (List Nat)
  | 0, ws => ws
  | n+1, ws =>
      let i := ws.length
      let w1 := ws.getD (i - 4) []
      let wp := ws.getD (i - 1) []
      let t := if i % 4 = 0
        then xorW (subWord (rotWord wp)) [rcVal (i / 4 - 1), 0, 0, 0]
        else wp
      expandWords n (ws ++ [xorW w1 t])

/-- The 44 words of the AES-128 key schedule. -/
def keyWords (key : List Nat) : List (List Nat) :=
  expandWords 40
    [key.take 4, (key.drop 4).take 4, (key.drop 8).take 4, (key.drop 12).take 4]

/-- Pack a 16-byte list into a state; other lengths give the zero state
(never reached on the pipeline's inputs). -/
def toB16 : List Nat → B16
  | [a0, a1, a2, a3, a4, a5, a6, a7, a8, a9, a10, a11, a12, a13, a14, a15] =>
      ⟨a0, a1, a2, a3, a4, a5, a6, a7, a8, a9, a10, a11, a12, a13, a14, a15⟩
  | _ => zeroB16

/-- The bytes of a state, in order. -/
def b16ToBytes (s : B16) : List Nat :=
  [s.b0, s.b1, s.b2, s.b3, s.b4, s.b5, s.b6, s.b7,
   s.b8, s.b9, s.b10, s.b11, s.b12, s.b13, s.b14, s.b15]

/-- The eleven round keys of a 16-byte key. -/
def roundKeys (key : List Nat) : List B16 :=
  (List.range 11).map fun r =>
    match ((keyWords key).drop (4 * r)).take 4 with
    | [w0, w1, w2, w3] => toB16 (w0 ++ w1 ++ w2 ++ w3)
    | _ => zeroB16

/-- One middle encryption round. -/
def midRoundE (s k : B16) : B16 := xorB16 (mixColumnsB (shiftRowsB (subBytesB s))) k

/-- One middle decryption round (the exact inverse of midRoundE). -/
def midRoundD (s k : B16) : B16 :=
  invSubBytesB (invShiftRowsB (invMixColumnsB (xorB16 s k)))

/-- AES encryption from explicit round keys: initial AddRoundKey, nine
middle rounds, final round without MixColumns. -/
def aesEncryptCore (k0 : B16) (mids : List B16) (klast : B16) (s : B16) : B16 :=
  xorB16 (shiftRowsB (subBytesB (List.foldl midRoundE (xorB16 s k0) mids))) klast

/-- AES decryption from explicit round keys, the mirror image of
aesEncryptCore. -/
def aesDecryptCore (k0 : B16) (mids : List B16) (klast : B16) (s : B16) : B16 :=
  xorB16 (List.foldl midRoundD (invSubBytesB (invShiftRowsB (xorB16 s klast)))
    mids.reverse) k0

/-- AES-128 block encryption under a 16-byte key. -/
def aesEncryptBlock (key : List Nat) (blk : B16) : B16 :=
  let rks := roundKeys key
  aesEncryptCore (rks.getD 0 zeroB16) ((rks.drop 1).take 9) (rks.getD 10 zeroB16) blk

/-- AES-128 block decryption under a 16-byte key. -/
def aesDecryptBlock (key : List Nat) (blk : B16) : B16 :=
  let rks := roundKeys key
  aesDecryptCore (rks.getD 0 zeroB16) ((rks.drop 1).take 9) (rks.getD 10 zeroB16) blk

/-! ## CBC mode and PKCS#7 padding -/

/-- Split a byte list into 16-byte states (callers ensure the length is a
multiple of 16). -/
def bytesToBlocks (bs : List Nat) : List B16 :=
  if bs = [] then [] else toB16 (bs.take 16) :: bytesToBlocks (bs.drop 16)
termination_by bs.length
decreasing_by
  rename_i h
  simp only [List.length_drop]
  have : 0 < bs.length := List.length_pos.mpr h
  omega

/-- Concatenate the bytes of a list of states. -/
def blocksToBytes : List B16 → List Nat
  | [] => []
  | b :: rest => b16ToBytes b ++ blocksToBytes rest

/-- CBC encryption of a block sequence under a chaining value. -/
def cbcEncryptB (key : List Nat) (prev : B16) : List B16 → List B16
  | [] => []
  | p :: rest =>
      let c := aesEncryptBlock key (xorB16 prev p)
      c :: cbcEncryptB key c rest

/-- CBC decryption of a block sequence under a chaining value. -/
def cbcDecryptB (key : List Nat) (prev : B16) : List B16 → List B16
  | [] => []
  | c :: rest => xorB16 prev (aesDecryptBlock key c) :: cbcDecryptB key c rest

/-- PKCS#7: append n copies of n, n being 16 minus the length modulo
16. -/
def pkcs7Pad (bs : List Nat) : List Nat :=
  bs ++ List.replicate (16 - bs.length % 16) (16 - bs.length % 16)

/-- PKCS#7 removal as OpenSSL checks it: the last byte n must be in
1..16, and the last n bytes must all equal n; otherwise the decryption
fails. -/
def pkcs7Unpad (bs : List Nat) : Option (List Nat) :=
  match bs.getLast? with
  | none => none
  | some n =>
      if 1 ≤ n ∧ n ≤ 16 ∧ n ≤ bs.length
          ∧ (bs.drop (bs.length - n)).all (fun b => b == n) then
        some (bs.take (bs.length - n))
      else none

/-- CBC decryption over bytes with the OpenSSL failure modes of
decipher.update/decipher.final: none when the ciphertext is empty or not
a block multiple (wrong final block length) or the padding check fails
(bad decrypt). -/
def aesCbcDecryptBytes (key iv ct : List Nat) : Option (List Nat) :=
  if ct ≠ [] ∧ ct.length % 16 = 0 then
    pkcs7Unpad (blocksToBytes (cbcDecryptB key (toB16 iv) (bytesToBlocks ct)))
  else none

/-- Modelled from the spec: the matching encrypt helper the test harness
must implement — PKCS#7 pad, then CBC-encrypt with the same key and IV
the source decrypts with. (The repository has no encryption code.) -/
def aesCbcEncryptBytes (key iv pt : List Nat) : List Nat :=
  blocksToBytes (cbcEncryptB key (toB16 iv) (bytesToBlocks (pkcs7Pad pt)))

/-! ## Base64 encoding (for the encrypt helper) -/

/-- Character of one sextet in the standard base64 alphabet. -/
def b64Char (n : Nat) : Char :=
  if n < 26 then Char.ofNat (65 + n)
  else if n < 52 then Char.ofNat (97 + (n - 26))
  else if n < 62 then Char.ofNat (48 + (n - 52))
  else if n = 62 then '+'
  else '/'

/-- Standard padded base64 encoding of a byte list. -/
def base64EncodeChars : List Nat → List Char
  | a :: b :: c :: rest =>
      b64Char (a / 4) :: b64Char ((a % 4) * 16 + b / 16)
        :: b64Char ((b % 16) * 4 + c / 64) :: b64Char (c % 64)
        :: base64EncodeChars rest
  | [a, b] => [b64Char (a / 4), b64Char ((a % 4) * 16 + b / 16),
      b64Char ((b % 16) * 4), '=']
  | [a] => [b64Char (a / 4), b64Char ((a % 4) * 16), '=', '=']
  | [] => []

/-- Standard padded base64 encoding as a string. -/
def base64Encode (bs : List Nat) : String := String.mk (base64EncodeChars bs)

/-! ## JSON

The decrypted plaintext is passed through JSON.parse, and the extractor
parses response bodies speculatively. The byte-level model below covers
the composite of UTF-8 decoding and JSON.parse: values carry their
strings as raw byte lists, numbers are modelled as integers (the
upstream envelope uses integral codes), objects keep their fields in
parse order and duplicate keys are read by their last occurrence, as
JavaScript does. -/

/-- A JSON value over byte-list strings with integral numbers. -/
inductive Json where
  | null
  | bool (b : Bool)
  | num (n : Int)
  | str (s : List Nat)
  | arr (items : List Json)
  | obj (fields : List (List Nat × Json))

/-- Decimal digit bytes of a natural number. -/
def natDecimalBytes (n : Nat) : List Nat :=
  if n = 0 then [48] else ((Nat.digits 10 n).map (fun d => d + 48)).reverse

/-- Decimal digit bytes of an integer, with a leading minus sign when
negative. -/
def intDecimalBytes : Int → List Nat
  | .ofNat n => natDecimalBytes n
  | .negSucc m => 45 :: natDecimalBytes (m + 1)

/-- Lowercase hex digit byte of a value below 16. -/
def hexDigitByte (d : Nat) : Nat := if d < 10 then 48 + d else 87 + d

/-- JSON string escaping of one byte: quote and backslash get a
backslash escape, control bytes a \u00XX escape, everything else passes
through. -/
def escapeStringByte (b : Nat) : List Nat :=
  if b = 34 then [92, 34]
  else if b = 92 then [92, 92]
  else if b < 32 then [92, 117, 48, 48, hexDigitByte (b / 16), hexDigitByte (b % 16)]
  else [b]

/-- Serialized JSON string literal of a byte list. -/
def serializeStrBytes (s : List Nat) : List Nat :=
  34 :: (s.flatMap escapeStringByte) ++ [34]

mutual

/-- Compact JSON serialization of a value (the form JSON.stringify
produces, modulo the choice of \u00XX for control characters). -/
def serializeJson : Json → List Nat
  | .null => [110, 117, 108, 108]
  | .bool true => [116, 114, 117, 101]
  | .bool false => [102, 97, 108, 115, 101]
  | .num n => intDecimalBytes n
  | .str s => serializeStrBytes s
  | .arr items => 91 :: serializeItems items ++ [93]
  | .obj fields => 123 :: serializeFields fields ++ [125]

/-- Comma-separated serialization of array items. -/
def serializeItems : List Json → List Nat
  | [] => []
  | [x] => serializeJson x
  | x :: y :: xs => serializeJson x ++ 44 :: serializeItems (y :: xs)

/-- Comma-separated serialization of object fields. -/
def serializeFields : List (List Nat × Json) → List Nat
  | [] => []
  | [(k, v)] => serializeStrBytes k ++ 58 :: serializeJson v
  | (k, v) :: f :: fs =>
      serializeStrBytes k ++ 58 :: serializeJson v ++ 44 :: serializeFields (f :: fs)

end

/-- Hex digit value of a byte, upper or lower case. -/
def hexVal (b : Nat) : Option Nat :=
  if 48 ≤ b ∧ b ≤ 57 then some (b - 48)
  else if 97 ≤ b ∧ b ≤ 102 then some (b - 87)
  else if 65 ≤ b ∧ b ≤ 70 then some (b - 55)
  else none

/-- UTF-8 bytes of a \uXXXX code point (three bytes suffice for the
basic multilingual plane). -/
def utf8EncodeCodepoint (n : Nat) : List Nat :=
  if n < 128 then [n]
  else if n < 2048 then [192 + n / 64, 128 + n % 64]
  else [224 + n / 4096, 128 + (n / 64) % 64, 128 + n % 64]

/-- Parse the body of a JSON string literal after the opening quote,
returning the string bytes and the rest after the closing quote. -/
def parseStringBody : List Nat → Option (List Nat × List Nat)
  | [] => none
  | b :: rest =>
      if b = 34 then some ([], rest)
      else if b = 92 then
        match rest with
        | [] => none
        | e :: rest2 =>
            if e = 34 then (parseStringBody rest2).map (fun p => (34 :: p.1, p.2))
            else if e = 92 then (parseStringBody rest2).map (fun p => (92 :: p.1, p.2))
            else if e = 47 then (parseStringBody rest2).map (fun p => (47 :: p.1, p.2))
            else if e = 98 then (parseStringBody rest2).map (fun p => (8 :: p.1, p.2))
            else if e = 102 then (parseStringBody rest2).map (fun p => (12 :: p.1, p.2))
            else if e = 110 then (parseStringBody rest2).map (fun p => (10 :: p.1, p.2))
            else if e = 114 then (parseStringBody rest2).map (fun p => (13 :: p.1, p.2))
            else if e = 116 then (parseStringBody rest2).map (fun p => (9 :: p.1, p.2))
            else if e = 117 then
              match rest2 with
              | h1 :: h2 :: h3 :: h4 :: rest3 =>
                  match hexVal h1, hexVal h2, hexVal h3, hexVal h4 with
                  | some x1, some x2, some x3, some x4 =>
                      (parseStringBody rest3).map (fun p =>
                        (utf8EncodeCodepoint (x1 * 4096 + x2 * 256 + x3 * 16 + x4)
                          ++ p.1, p.2))
                  | _, _, _, _ => none
              | _ => none
            else none
      else if 32 ≤ b then (parseStringBody rest).map (fun p => (b :: p.1, p.2))
      else none

/-- Decimal digit byte. -/
def isDigitByte (b : Nat) : Bool := 48 ≤ b ∧ b ≤ 57

/-- Parse a natural number literal: a non-empty digit run without a
redundant leading zero (as JSON requires). -/
def parseNatBytes (bs : List Nat) : Option (Nat × List Nat) :=
  let ds := bs.takeWhile isDigitByte
  if ds = [] then none
  else if 1 < ds.length ∧ ds.head? = some 48 then none
  else some (ds.foldl (fun a d => a * 10 + (d - 48)) 0, bs.dropWhile isDigitByte)

mutual

/-- Parse one JSON value (after skipping whitespace), fuel-bounded; every
recursive call consumes one unit of fuel. Covers the integral-number
fragment of JSON.parse that the model uses. -/
def parseVal : Nat → List Nat → Option (Json × List Nat)
  | 0, _ => none
  | fuel+1, bs =>
      match bs.dropWhile isWsByte with
      | [] => none
      | b :: rest =>
          if b = 110 then
            match rest with
            | 117 :: 108 :: 108 :: r => some (.null, r)
            | _ => none
          else if b = 116 then
            match rest with
            | 114 :: 117 :: 101 :: r => some (.bool true, r)
            | _ => none
          else if b = 102 then
            match rest with
            | 97 :: 108 :: 115 :: 101 :: r => some (.bool false, r)
            | _ => none
          else if b = 34 then
            (parseStringBody rest).map (fun p => (.str p.1, p.2))
          else if b = 91 then
            match rest.dropWhile isWsByte with
            | [] => none
            | c :: r1 =>
                if c = 93 then some (.arr [], r1)
                else (parseItemsRest fuel (c :: r1)).map (fun p => (.arr p.1, p.2))
          else if b = 123 then
            match rest.dropWhile isWsByte with
            | [] => none
            | c :: r1 =>
                if c = 125 then some (.obj [], r1)
                else (parseFieldsRest fuel (c :: r1)).map (fun p => (.obj p.1, p.2))
          else if b = 45 then
            (parseNatBytes rest).map (fun p => (.num (-(p.1 : Int)), p.2))
          else if isDigitByte b then
            (parseNatBytes (b :: rest)).map (fun p => (.num (p.1 : Int), p.2))
          else none

/-- Parse the items of a non-empty array up to and including the closing
bracket. -/
def parseItemsRest : Nat → List Nat → Option (List Json × List Nat)
  | 0, _ => none
  | fuel+1, bs =>
      match parseVal fuel bs with
      | none => none
      | some (v, rest) =>
          match rest.dropWhile isWsByte with
          | 44 :: r => (parseItemsRest fuel r).map (fun p => (v :: p.1, p.2))
          | 93 :: r => some ([v], r)
          | _ => none

/-- Parse the fields of a non-empty object up to and including the
closing brace. -/
def parseFieldsRest : Nat → List Nat → Option (List (List Nat × Json) × List Nat)
  | 0, _ => none
  | fuel+1, bs =>
      match bs.dropWhile isWsByte with
      | 34 :: krest =>
          match parseStringBody krest with
          | none => none
          | some (k, r1) =>
              match r1.dropWhile isWsByte with
              | 58 :: r2 =>
                  match parseVal fuel r2 with
                  | none => none
                  | some (v, r3) =>
                      match r3.dropWhile isWsByte with
                      | 44 :: r4 =>
                          (parseFieldsRest fuel r4).map (fun p => ((k, v) :: p.1, p.2))
                      | 125 :: r4 => some ([(k, v)], r4)
                      | _ => none
              | _ => none
      | _ => none

end

/-- Byte-level JSON.parse of a whole text: one value, surrounding
whitespace allowed, nothing else. -/
def jsonParseBytes (bs : List Nat) : Option Json :=
  match parseVal (bs.length + 1) bs with
  | some (v, rest) => if rest.dropWhile isWsByte = [] then some v else none
  | none => none

/-! ## The decryption pipeline (decryptB64, decryptPayload) -/

/-- The exceptions decryptB64 can throw: the explicit empty-ciphertext
guard, and the OpenSSL block/padding failures. -/
inductive DecError where
  | emptyCiphertext
  | decryptionError
deriving DecidableEq, Repr

/-- Embedding of decryptB64: reject an empty ciphertext string, derive
the cipher key, base64-decode the ciphertext and decrypt it with
aes-128-cbc using the derived key as both key and IV. Returns the
decrypted plaintext bytes. -/
def decryptB64 (cipherB64 secB64 : String) : Except DecError (List Nat) :=
  if cipherB64 = "" then .error .emptyCiphertext
  else
    let key := deriveKeyFromSec secB64
    match aesCbcDecryptBytes key key (nodeB64Decode cipherB64) with
    | some pt => .ok pt
    | none => .error .decryptionError

/-- Everything a decryptPayload call can throw: UpstreamError from the
key fetch, the decryptB64 errors, and a JSON.parse failure on the
decrypted text (the spec's PayloadFormatError, carrying the text). -/
inductive PipelineError where
  | upstream (payload : Option KeyPayload)
  | emptyCiphertext
  | decryptionError
  | payloadFormatError (text : List Nat)
deriving DecidableEq, Repr

/-- The pure tail of decryptPayload once a key string is in hand:
decryptB64 then JSON.parse. -/
def decryptPayloadPure (cipherText key : String) : Except PipelineError Json :=
  match decryptB64 cipherText key with
  | .error .emptyCiphertext => .error .emptyCiphertext
  | .error .decryptionError => .error .decryptionError
  | .ok pt =>
      match jsonParseBytes pt with
      | some v => .ok v
      | none => .error (.payloadFormatError pt)

/-- Embedding of decryptPayload: use the supplied key if it is truthy,
otherwise consult the KeyStore (cache read or upstream fetch); then
decrypt and parse. Returns the result together with the cache after the
call and the number of network fetches issued. -/
def decryptPayload (cipherText : String) (secB64 : Option String) (now : Int)
    (resp : UpstreamResponse) (c : KeyCache) :
    Except PipelineError Json × KeyCache × Nat :=
  if jsTruthy secB64 then (decryptPayloadPure cipherText (secB64.getD ""), c, 0)
  else
    let fo := fetchSecurityKey now resp c
    match fo.result with
    | .ok k => (decryptPayloadPure cipherText k, fo.cache, fo.fetches)
    | .error (.upstream p) => (.error (.upstream p), fo.cache, fo.fetches)

/-- Modelled from the spec: full round trip of the harness encrypt
helper at the string level — serialize, pad, CBC-encrypt under the
derived key, base64-encode. -/
def encryptPayload (v : Json) (secB64 : String) : String :=
  base64Encode (aesCbcEncryptBytes (deriveKeyFromSec secB64)
    (deriveKeyFromSec secB64) (serializeJson v))

/-- The byte-level tail of the decrypt pipeline, after base64 decoding:
aes-128-cbc decryption under the derived key, then JSON.parse. Used to
state properties of tampering with the ciphertext bytes before
decryption. -/
def decryptBytesPipeline (secB64 : String) (ct : List Nat) :
    Except PipelineError Json :=
  match aesCbcDecryptBytes (deriveKeyFromSec secB64) (deriveKeyFromSec secB64) ct with
  | none => .error .decryptionError
  | some pt =>
      match jsonParseBytes pt with
      | some v => .ok v
      | none => .error (.payloadFormatError pt)

/-- Replace byte i of a byte list by its xor with d (a single-byte
flip). -/
def flipByteAt (bs : List Nat) (i d : Nat) : List Nat :=
  bs.set i (bs.getD i 0 ^^^ d)

/-- Concrete plaintext value for the tampering scenario: an object whose
msg field is a 53-byte string of letter A. Its ciphertext under the key
below spans four blocks, so a flip inside ciphertext block 1 garbles a
plaintext block that lies entirely inside the string. -/
def cexJson : Json := .obj [([109, 115, 103], .str (List.replicate 53 65))]

/-- The string the tampered ciphertext decrypts to: plaintext block 1
garbled, one byte of block 2 flipped from A to the at sign, everything
still legal inside a JSON string literal. -/
def cexGarbledStr : List Nat :=
  List.replicate 8 65
    ++ [78, 206, 132, 81, 174, 113, 215, 93, 73, 42, 181, 145, 172, 204, 70, 253]
    ++ List.replicate 5 65 ++ [64] ++ List.replicate 23 65

/-- The silently wrong value the tampered ciphertext parses to. -/
def cexGarbledJson : Json := .obj [([109, 115, 103], .str cexGarbledStr)]

/-- The genuine ciphertext of cexJson under the security key c2Vr. -/
def cexCt : List Nat :=
  aesCbcEncryptBytes (deriveKeyFromSec "c2Vr") (deriveKeyFromSec "c2Vr")
    (serializeJson cexJson)

/-! ## The response extractor (extractCipherFromResponse) -/

/-- An HTTP response as the extractor sees it: the declared content type
(null allowed), the status code, the requested URL, and the bytes of the
one-shot body stream. -/
structure HttpResponse where
  contentType : Option String
  status : Nat
  url : String
  body : List Nat
deriving DecidableEq, Repr

/-- Substring test on character lists (String.prototype.includes). -/
def startsWithChars : List Char → List Char → Bool
  | _, [] => true
  | [], _ :: _ => false
  | a :: as, b :: bs => a == b && startsWithChars as bs

/-- Substring occurrence test on character lists. -/
def containsChars : List Char → List Char → Bool
  | [], n => startsWithChars [] n
  | h :: t, n => startsWithChars (h :: t) n || containsChars t n

/-- Whether the declared content type mentions application/json (after
the source's null-to-empty-string default). -/
def ctIncludesJson (r : HttpResponse) : Bool :=
  containsChars (r.contentType.getD "").data "application/json".data

/-- How extractCipherFromResponse can fail: a propagated JSON.parse
SyntaxError (JSON content type, malformed body), the WHATWG TypeError
from reading an already-consumed body, and the source's own
empty-response error carrying status and URL. -/
inductive ExtractError where
  | jsonParseFailure
  | bodyUnusable
  | emptyResponse (status : Nat) (url : String)
deriving DecidableEq, Repr

/-- The data field of a parsed body when the parsed value is an object
whose data field (last occurrence, as JavaScript keeps it) is a string
with non-empty trim: the trimmed ciphertext. -/
def findDataField (fields : List (List Nat × Json)) : Option Json :=
  match fields.reverse.find? (fun kv => kv.1 == [100, 97, 116, 97]) with
  | some kv => some kv.2
  | none => none

/-- The trimmed data string of a parsed body, when present. -/
def payloadDataString : Json → Option (List Nat)
  | .obj fields =>
      match findDataField fields with
      | some (.str s) => if trimBytes s ≠ [] then some (trimBytes s) else none
      | _ => none
  | _ => none

/-- Embedding of extractCipherFromResponse over the one-shot WHATWG
body: under a JSON content type, response.json() is called with no
try/catch, so a malformed body propagates the parse error, and when the
parsed body has no usable data field the fall-through call to
response.text() finds the body already consumed and throws a TypeError;
under any other content type the speculative response.json() is wrapped
in try/catch, but its body read is what makes the subsequent
response.text() throw, so the raw-text fallback and the
empty-response error behind it are unreachable there too. -/
def extractCipherFromResponse (r : HttpResponse) :
    Except ExtractError (List Nat) :=
  if ctIncludesJson r then
    match jsonParseBytes r.body with
    | none => .error .jsonParseFailure
    | some payload =>
        match payloadDataString payload with
        | some d => .ok d
        | none => .error .bodyUnusable
  else
    match jsonParseBytes r.body with
    | some payload =>
        match payloadDataString payload with
        | some d => .ok d
        | none => .error .bodyUnusable
    | none => .error .bodyUnusable

/-! ## Helper lemmas about the KeyStore and key derivation -/

/-- Key derivation always produces exactly 16 bytes. -/
theorem deriveKeyFromSec_length (s : String) : (deriveKeyFromSec s).length = 16 := by
  unfold deriveKeyFromSec
  dsimp only
  set km := nodeB64Decode s ++ SUFFIX_BYTES with hkm
  split
  · rw [List.length_append, List.length_replicate]
    omega
  · split
    · rw [List.length_take]
      omega
    · omega

/-- A fetchSecurityKey call issues at most one network fetch. -/
theorem fetchSecurityKey_fetches_le_one (now : Int) (r : UpstreamResponse)
    (c : KeyCache) : (fetchSecurityKey now r c).fetches ≤ 1 := by
  unfold fetchSecurityKey
  split
  · exact Nat.zero_le 1
  · cases r.body with
    | none => exact Nat.le_refl 1
    | some p =>
        dsimp only
        split
        · exact Nat.le_refl 1
        · exact Nat.le_refl 1

/-- On a fresh truthy cache the call is a pure read. -/
theorem fetchSecurityKey_hit (now : Int) (r : UpstreamResponse) (c : KeyCache)
    (v : String) (hv : c.value = some v) (hne : v ≠ "")
    (hfresh : now - c.fetchedAt < SECURITY_TTL_MS) :
    fetchSecurityKey now r c = ⟨.ok v, c, 0⟩ := by
  unfold fetchSecurityKey
  rw [if_pos]
  · simp [hv]
  · constructor
    · simp [jsTruthy, hv, hne]
    · exact hfresh

/-- Truthiness of a nullable string holds exactly for a non-empty string. -/
theorem jsTruthy_iff (o : Option String) :
    jsTruthy o = true ↔ ∃ v, o = some v ∧ v ≠ "" := by
  cases o <;> simp [jsTruthy]

/-- A cache miss with a well-shaped body succeeds, fetching once and
replacing the cache. -/
theorem fetchSecurityKey_miss_ok (now : Int) (r : UpstreamResponse)
    (c : KeyCache) (p : KeyPayload)
    (hmiss : ¬(jsTruthy c.value = true ∧ now - c.fetchedAt < SECURITY_TTL_MS))
    (hb : r.body = some p) (hc : p.code = some 200)
    (hd : jsTruthy p.data = true) :
    fetchSecurityKey now r c = ⟨.ok (p.data.getD ""), ⟨p.data, now⟩, 1⟩ := by
  unfold fetchSecurityKey
  rw [if_neg hmiss, hb]
  dsimp only
  rw [if_pos ⟨hc, hd⟩]

/-- A cache miss with any other body shape throws, fetching once and
leaving the cache unchanged. -/
theorem fetchSecurityKey_miss_err (now : Int) (r : UpstreamResponse)
    (c : KeyCache)
    (hmiss : ¬(jsTruthy c.value = true ∧ now - c.fetchedAt < SECURITY_TTL_MS))
    (hshape : ∀ p, r.body = some p → ¬(p.code = some 200 ∧ jsTruthy p.data = true)) :
    fetchSecurityKey now r c = ⟨.error (.upstream r.body), c, 1⟩ := by
  unfold fetchSecurityKey
  rw [if_neg hmiss]
  cases hb : r.body with
  | none => rfl
  | some p =>
      dsimp only
      rw [if_neg (hshape p hb)]

/-- Inversion: a call that returned a key was either a fresh-cache read or
a successful fetch. -/
theorem fetchSecurityKey_ok_inv (now : Int) (r : UpstreamResponse)
    (c : KeyCache) (k : String)
    (h : (fetchSecurityKey now r c).result = .ok k) :
    ((jsTruthy c.value = true ∧ now - c.fetchedAt < SECURITY_TTL_MS)
        ∧ fetchSecurityKey now r c = ⟨.ok (c.value.getD ""), c, 0⟩)
    ∨ (∃ p, r.body = some p ∧ p.code = some 200 ∧ jsTruthy p.data = true
        ∧ fetchSecurityKey now r c = ⟨.ok (p.data.getD ""), ⟨p.data, now⟩, 1⟩) := by
  by_cases hhit : jsTruthy c.value = true ∧ now - c.fetchedAt < SECURITY_TTL_MS
  · left
    refine ⟨hhit, ?_⟩
    unfold fetchSecurityKey
    rw [if_pos hhit]
  · right
    cases hb : r.body with
    | none =>
        rw [fetchSecurityKey_miss_err now r c hhit
          (by intro p hp; rw [hb] at hp; exact absurd hp (by simp))] at h
        exact absurd h (by simp)
    | some p =>
        by_cases hgood : p.code = some 200 ∧ jsTruthy p.data = true
        · exact ⟨p, rfl, hgood.1, hgood.2,
            fetchSecurityKey_miss_ok now r c p hhit hb hgood.1 hgood.2⟩
        · rw [fetchSecurityKey_miss_err now r c hhit
            (by intro q hq; rw [hb] at hq; cases hq; exact hgood)] at h
          exact absurd h (by simp)

/-! ## Claim C3 -/

/-- C3: deriveKeyFromSec is a deterministic pure function whose output is
exactly 16 bytes for every input string: it concatenates the decoded
security-key bytes with the suffix bytes, right-pads with zero bytes when
that is shorter than 16 bytes and truncates to the first 16 bytes when it
is longer. (Determinism is the first conjunct: equal inputs give equal
outputs, immediate because the embedding is a pure function.) -/
theorem deriveKeyFromSec_deterministic_16_bytes (s : String) :
    (∀ t : String, t = s → deriveKeyFromSec t = deriveKeyFromSec s)
    ∧ (deriveKeyFromSec s).length = 16
    ∧ ((nodeB64Decode s ++ SUFFIX_BYTES).length < 16 →
        deriveKeyFromSec s = (nodeB64Decode s ++ SUFFIX_BYTES)
          ++ List.replicate (16 - (nodeB64Decode s ++ SUFFIX_BYTES).length) 0)
    ∧ (16 ≤ (nodeB64Decode s ++ SUFFIX_BYTES).length →
        deriveKeyFromSec s = (nodeB64Decode s ++ SUFFIX_BYTES).take 16) := by
  refine ⟨fun t ht => ht ▸ rfl, deriveKeyFromSec_length s, ?_, ?_⟩
  · intro h
    unfold deriveKeyFromSec
    dsimp only
    rw [if_pos h]
  · intro h
    unfold deriveKeyFromSec
    dsimp only
    rw [if_neg (by omega)]
    by_cases h16 : (nodeB64Decode s ++ SUFFIX_BYTES).length > 16
    · rw [if_pos h16]
    · rw [if_neg h16]
      have hlen : (nodeB64Decode s ++ SUFFIX_BYTES).length = 16 := by omega
      rw [← hlen, List.take_length]

/-- Closed instantiation of C3: the empty key pads, a 16-byte key
truncates. -/
theorem deriveKeyFromSec_deterministic_16_bytes_witness :
    (deriveKeyFromSec "").length = 16
    ∧ deriveKeyFromSec "" = (nodeB64Decode "" ++ SUFFIX_BYTES)
        ++ List.replicate (16 - (nodeB64Decode "" ++ SUFFIX_BYTES).length) 0
    ∧ deriveKeyFromSec "MTIzNDU2Nzg5MGFiY2RlZg=="
        = (nodeB64Decode "MTIzNDU2Nzg5MGFiY2RlZg==" ++ SUFFIX_BYTES).take 16 :=
  ⟨(deriveKeyFromSec_deterministic_16_bytes "").2.1,
   (deriveKeyFromSec_deterministic_16_bytes "").2.2.1 (by decide),
   (deriveKeyFromSec_deterministic_16_bytes "MTIzNDU2Nzg5MGFiY2RlZg==").2.2.2
     (by decide)⟩

/-! ## Claim C7 -/

/-- C7 counterexample: the string of three exclamation marks is not
well-formed base64, yet deriveKeyFromSec does not fail on it — Node's
lenient decoder ignores the invalid characters, decodes no bytes, and
derivation succeeds with the suffix padded to 16 bytes. There is no
EncodingError path. -/
theorem deriveKeyFromSec_malformed_succeeds :
    strictBase64Wf "!!!" = false
    ∧ deriveKeyFromSec "!!!"
        = [84, 33, 66, 103, 74, 66, 0, 0, 0, 0, 0, 0, 0, 0, 0, 0] := by
  constructor
  · rfl
  · rfl

/-- C7 amended: key derivation has no failure path at all; every input
string, malformed base64 included, is decoded leniently (characters
outside the alphabet are ignored) and yields a 16-byte key. -/
theorem deriveKeyFromSec_never_fails (s : String)
    (_hmal : strictBase64Wf s = false) : (deriveKeyFromSec s).length = 16 :=
  deriveKeyFromSec_length s

/-- Closed instantiation of the amended C7 at a malformed input. -/
theorem deriveKeyFromSec_never_fails_witness :
    (deriveKeyFromSec "!!!").length = 16 :=
  deriveKeyFromSec_never_fails "!!!" (by rfl)

/-! ## Claim C1 -/

/-- C1 counterexample: two fetchSecurityKey calls one millisecond apart
(well within the 10-minute TTL) issue two network fetches when the first
call's fetch fails — the failed call leaves the cache empty, so the
second call fetches again. The claim says two calls within the TTL window
issue at most one fetch. -/
theorem fetchSecurityKey_two_calls_two_fetches :
    (0 : Int) ≤ 1 ∧ (1 : Int) - 0 < SECURITY_TTL_MS
    ∧ (fetchSecurityKey 0 ⟨true, none⟩ initialCache).fetches
        + (fetchSecurityKey 1 ⟨true, none⟩
            (fetchSecurityKey 0 ⟨true, none⟩ initialCache).cache).fetches
        = 2 := by
  decide

/-- C1 amended: (1) a cache hit (truthy cached value younger than the
TTL) returns the cached value with no network fetch and no cache change;
(2) provided the first call succeeds, two calls within the TTL window of
each other issue at most one network fetch between them; (3) a call after
TTL expiry (or with no cached value) issues exactly one new fetch, and on
its success the cached value and its fetch timestamp are both updated. -/
theorem fetchSecurityKey_cache_spec (now t1 t2 : Int)
    (r r1 r2 : UpstreamResponse) (c : KeyCache) :
    (∀ v : String, c.value = some v → v ≠ "" →
        now - c.fetchedAt < SECURITY_TTL_MS →
        fetchSecurityKey now r c = ⟨.ok v, c, 0⟩)
    ∧ ((∃ k, (fetchSecurityKey t1 r1 c).result = .ok k) → t1 ≤ t2 →
        t2 - t1 < SECURITY_TTL_MS →
        (fetchSecurityKey t1 r1 c).fetches
          + (fetchSecurityKey t2 r2 (fetchSecurityKey t1 r1 c).cache).fetches
          ≤ 1)
    ∧ (¬(jsTruthy c.value = true ∧ now - c.fetchedAt < SECURITY_TTL_MS) →
        (fetchSecurityKey now r c).fetches = 1
        ∧ ∀ p : KeyPayload, r.body = some p → p.code = some 200 →
            jsTruthy p.data = true →
            (fetchSecurityKey now r c).cache = ⟨p.data, now⟩
            ∧ (fetchSecurityKey now r c).result = .ok (p.data.getD "")) := by
  refine ⟨?_, ?_, ?_⟩
  · exact fun v hv hne hfresh => fetchSecurityKey_hit now r c v hv hne hfresh
  · rintro ⟨k, hk⟩ hle hlt
    rcases fetchSecurityKey_ok_inv t1 r1 c k hk with ⟨_, heq⟩ | ⟨p, hb, hc, hd, heq⟩
    · rw [heq]
      simpa using fetchSecurityKey_fetches_le_one t2 r2 c
    · rw [heq]
      rcases (jsTruthy_iff p.data).mp hd with ⟨v, hv, hvne⟩
      rw [fetchSecurityKey_hit t2 r2 ⟨p.data, t1⟩ v hv hvne (by simpa using hlt)]
      exact Nat.le_refl 1
  · intro hmiss
    constructor
    · cases hb : r.body with
      | none =>
          rw [fetchSecurityKey_miss_err now r c hmiss
            (by intro p hp; rw [hb] at hp; exact absurd hp (by simp))]
      | some p =>
          by_cases hgood : p.code = some 200 ∧ jsTruthy p.data = true
          · rw [fetchSecurityKey_miss_ok now r c p hmiss hb hgood.1 hgood.2]
          · rw [fetchSecurityKey_miss_err now r c hmiss
              (by intro q hq; rw [hb] at hq; cases hq; exact hgood)]
    · intro p hb hc hd
      rw [fetchSecurityKey_miss_ok now r c p hmiss hb hc hd]
      exact ⟨rfl, rfl⟩

/-- Closed instantiation of the amended C1: a fresh hit is a pure read, a
successful miss then a hit issue one fetch total, and an initial-cache
call fetches exactly once, updating value and timestamp. -/
theorem fetchSecurityKey_cache_spec_witness :
    fetchSecurityKey 1 ⟨true, some ⟨some 200, some "u"⟩⟩ ⟨some "k", 0⟩
      = ⟨.ok "k", ⟨some "k", 0⟩, 0⟩
    ∧ (fetchSecurityKey 0 ⟨true, some ⟨some 200, some "u"⟩⟩ initialCache).fetches
        + (fetchSecurityKey 1 ⟨true, some ⟨some 200, some "u"⟩⟩
            (fetchSecurityKey 0 ⟨true, some ⟨some 200, some "u"⟩⟩
              initialCache).cache).fetches ≤ 1
    ∧ (fetchSecurityKey 5 ⟨true, some ⟨some 200, some "u"⟩⟩ initialCache).fetches = 1
    ∧ (fetchSecurityKey 5 ⟨true, some ⟨some 200, some "u"⟩⟩ initialCache).cache
        = ⟨some "u", 5⟩ :=
  ⟨(fetchSecurityKey_cache_spec 1 0 0 ⟨true, none⟩ ⟨true, none⟩ ⟨true, none⟩
      ⟨some "k", 0⟩).1 "k" rfl (by decide) (by decide),
   (fetchSecurityKey_cache_spec 0 0 1 ⟨true, none⟩
      ⟨true, some ⟨some 200, some "u"⟩⟩ ⟨true, some ⟨some 200, some "u"⟩⟩
      initialCache).2.1 ⟨"u", by decide⟩ (by decide) (by decide),
   ((fetchSecurityKey_cache_spec 5 0 0 ⟨true, some ⟨some 200, some "u"⟩⟩
      ⟨true, none⟩ ⟨true, none⟩ initialCache).2.2 (by decide)).1,
   (((fetchSecurityKey_cache_spec 5 0 0 ⟨true, some ⟨some 200, some "u"⟩⟩
      ⟨true, none⟩ ⟨true, none⟩ initialCache).2.2 (by decide)).2
      ⟨some 200, some "u"⟩ rfl rfl (by decide)).1⟩

/-! ## Claim C5 -/

/-- C5 counterexample: a response that is not an HTTP-level success but
whose parsed body has code 200 and a data field still succeeds, and the
cache is replaced — the source never consults the HTTP status of the key
response. -/
theorem fetchSecurityKey_ignores_http_status :
    (UpstreamResponse.mk false (some ⟨some 200, some "sek"⟩)).httpOk = false
    ∧ fetchSecurityKey 0 ⟨false, some ⟨some 200, some "sek"⟩⟩ initialCache
        = ⟨.ok "sek", ⟨some "sek", 0⟩, 1⟩ := by
  decide

/-- C5 amended: on a cache miss the fetch succeeds exactly when the
parsed JSON body is non-null with internal code 200 and a truthy data
field — the HTTP-level status is never consulted — and every failure
throws UpstreamError carrying the raw parsed payload while leaving the
cached value and timestamp unchanged. -/
theorem fetchSecurityKey_upstream_spec (now : Int) (r : UpstreamResponse)
    (c : KeyCache)
    (hmiss : ¬(jsTruthy c.value = true ∧ now - c.fetchedAt < SECURITY_TTL_MS)) :
    ((∃ k, (fetchSecurityKey now r c).result = .ok k)
      ↔ ∃ p, r.body = some p ∧ p.code = some 200 ∧ jsTruthy p.data = true)
    ∧ ∀ e, (fetchSecurityKey now r c).result = .error e →
        (fetchSecurityKey now r c).cache = c ∧ e = .upstream r.body := by
  constructor
  · constructor
    · rintro ⟨k, hk⟩
      rcases fetchSecurityKey_ok_inv now r c k hk with ⟨hhit, _⟩ | ⟨p, hb, hc, hd, _⟩
      · exact absurd hhit hmiss
      · exact ⟨p, hb, hc, hd⟩
    · rintro ⟨p, hb, hc, hd⟩
      rw [fetchSecurityKey_miss_ok now r c p hmiss hb hc hd]
      exact ⟨p.data.getD "", rfl⟩
  · intro e he
    have herr : ∀ p, r.body = some p → ¬(p.code = some 200 ∧ jsTruthy p.data = true) := by
      intro p hb hgood
      rw [fetchSecurityKey_miss_ok now r c p hmiss hb hgood.1 hgood.2] at he
      exact absurd he (by simp)
    rw [fetchSecurityKey_miss_err now r c hmiss herr] at he ⊢
    cases he
    exact ⟨rfl, rfl⟩

/-- Closed instantiation of the amended C5: a body that fails to parse
throws, leaves the cache unchanged, and the error carries the raw
payload; a well-shaped body succeeds. -/
theorem fetchSecurityKey_upstream_spec_witness :
    ((fetchSecurityKey 0 (⟨true, none⟩ : UpstreamResponse) initialCache).cache
        = initialCache
      ∧ KeyError.upstream none
          = .upstream (⟨true, none⟩ : UpstreamResponse).body)
    ∧ (∃ k, (fetchSecurityKey 0 (⟨true, some ⟨some 200, some "sek"⟩⟩ :
        UpstreamResponse) initialCache).result = .ok k) :=
  ⟨(fetchSecurityKey_upstream_spec 0 ⟨true, none⟩ initialCache (by decide)).2
      (.upstream none) (by decide),
   (fetchSecurityKey_upstream_spec 0 ⟨true, some ⟨some 200, some "sek"⟩⟩
      initialCache (by decide)).1.mpr ⟨⟨some 200, some "sek"⟩, rfl, rfl, by decide⟩⟩

/-! ## GF(256) algebra -/

/-- Xor of two bytes is a byte. -/
theorem byte_xor_lt {a b : Nat} (ha : a < 256) (hb : b < 256) : a ^^^ b < 256 :=
  Nat.xor_lt_two_pow (n := 8) ha hb

/-- Doubling distributes over xor. -/
theorem two_mul_xor (a b : Nat) : 2 * (a ^^^ b) = 2 * a ^^^ 2 * b := by
  have h : ∀ x : Nat, 2 * x = x <<< 1 := fun x => by
    rw [Nat.shiftLeft_eq]
    ring
  rw [h, h, h]
  apply Nat.eq_of_testBit_eq
  intro i
  simp [Nat.testBit_shiftLeft, Nat.testBit_xor, Bool.and_xor_distrib_left]

/-- Reduction modulo 256 distributes over xor. -/
theorem xor_mod256 (a b : Nat) : (a ^^^ b) % 256 = a % 256 ^^^ b % 256 := by
  show (a ^^^ b) % 2 ^ 8 = a % 2 ^ 8 ^^^ b % 2 ^ 8
  apply Nat.eq_of_testBit_eq
  intro i
  simp only [Nat.testBit_mod_two_pow, Nat.testBit_xor, Bool.and_xor_distrib_left]

/-- Bit 7 of a byte is its high-half test. -/
theorem div128_bit (x : Nat) (hx : x < 256) : x.testBit 7 = decide (128 ≤ x) := by
  rw [Nat.testBit_to_div_mod]
  simp only [decide_eq_decide]
  omega

/-- Cancelling a shared xor term on both summands. -/
theorem xor_xor_cancel_shared (p q r : Nat) : (p ^^^ r) ^^^ (q ^^^ r) = p ^^^ q := by
  have h : (p ^^^ r) ^^^ (q ^^^ r) = (p ^^^ q) ^^^ (r ^^^ r) := by ac_rfl
  rw [h, Nat.xor_self, Nat.xor_zero]

/-- Normal form of xtime on bytes. -/
theorem xtime_eq (z : Nat) (hz : z < 256) :
    xtime z = (2 * z) % 256 ^^^ (if 128 ≤ z then 27 else 0) := by
  unfold xtime
  split
  · rw [if_neg (by omega), Nat.mod_eq_of_lt (by omega), Nat.xor_zero]
  · rw [if_pos (by omega)]

/-- xtime maps bytes to bytes. -/
theorem xtime_lt (z : Nat) (hz : z < 256) : xtime z < 256 := by
  rw [xtime_eq z hz]
  exact byte_xor_lt (Nat.mod_lt _ (by norm_num)) (by split <;> norm_num)

/-- xtime is GF(2)-linear on bytes. -/
theorem xtime_xor (x y : Nat) (hx : x < 256) (hy : y < 256) :
    xtime (x ^^^ y) = xtime x ^^^ xtime y := by
  have hxy := byte_xor_lt hx hy
  rw [xtime_eq _ hxy, xtime_eq x hx, xtime_eq y hy, two_mul_xor, xor_mod256]
  have h6 := Nat.testBit_xor x y 7
  rw [div128_bit _ hxy, div128_bit x hx, div128_bit y hy] at h6
  by_cases h1 : 128 ≤ x <;> by_cases h2 : 128 ≤ y
  · have h3 : ¬ 128 ≤ x ^^^ y := by
      simp [h1, h2] at h6
      omega
    rw [if_pos h1, if_pos h2, if_neg h3, Nat.xor_zero, xor_xor_cancel_shared]
  · have h3 : 128 ≤ x ^^^ y := by
      simp [h1, h2] at h6
      exact h6
    rw [if_pos h1, if_neg h2, if_pos h3, Nat.xor_zero]
    ac_rfl
  · have h3 : 128 ≤ x ^^^ y := by
      simp [h1, h2] at h6
      exact h6
    rw [if_neg h1, if_pos h2, if_pos h3, Nat.xor_zero]
    ac_rfl
  · have h3 : ¬ 128 ≤ x ^^^ y := by
      simp [h1, h2] at h6
      omega
    rw [if_neg h1, if_neg h2, if_neg h3, Nat.xor_zero, Nat.xor_zero, Nat.xor_zero]

/-- The GF(256) product of a byte is a byte. -/
theorem gmulAux_lt (k a b : Nat) (hb : b < 256) : gmulAux k a b < 256 := by
  induction k generalizing a b with
  | zero => simp [gmulAux]
  | succ k ih =>
      unfold gmulAux
      refine byte_xor_lt ?_ (ih _ _ (xtime_lt b hb))
      split
      · exact hb
      · norm_num

/-- The GF(256) product of a byte is a byte. -/
theorem gmul_lt (a b : Nat) (hb : b < 256) : gmul a b < 256 := gmulAux_lt 8 a b hb

/-- The peasant product is linear in its byte argument. -/
theorem gmulAux_xor (k : Nat) : ∀ (a x y : Nat), x < 256 → y < 256 →
    gmulAux k a (x ^^^ y) = gmulAux k a x ^^^ gmulAux k a y := by
  induction k with
  | zero => intro a x y _ _; simp [gmulAux]
  | succ k ih =>
      intro a x y hx hy
      unfold gmulAux
      rw [xtime_xor x y hx hy, ih (a / 2) (xtime x) (xtime y) (xtime_lt x hx)
        (xtime_lt y hy)]
      split
      · ac_rfl
      · simp [Nat.zero_xor]

/-- GF(256) multiplication by a constant is linear on bytes. -/
theorem gmul_xor (a x y : Nat) (hx : x < 256) (hy : y < 256) :
    gmul a (x ^^^ y) = gmul a x ^^^ gmul a y := gmulAux_xor 8 a x y hx hy

/-- Four-term expansion of constant multiplication over xor. -/
theorem gmul_xor4 (a w x y z : Nat) (hw : w < 256) (hx : x < 256) (hy : y < 256)
    (hz : z < 256) :
    gmul a (w ^^^ x ^^^ y ^^^ z) = gmul a w ^^^ gmul a x ^^^ gmul a y ^^^ gmul a z := by
  rw [gmul_xor a _ z (byte_xor_lt (byte_xor_lt hw hx) hy) hz,
    gmul_xor a _ y (byte_xor_lt hw hx) hy, gmul_xor a w x hw hx]

set_option maxRecDepth 4000

/-- MixColumns inverse coefficient identity, diagonal terms. -/
theorem aesCoefA : ∀ x < 256,
    gmul 14 (gmul 2 x) ^^^ gmul 11 x ^^^ gmul 13 x ^^^ gmul 9 (gmul 3 x) = x := by
  decide

/-- MixColumns inverse coefficient identity, first vanishing pattern. -/
theorem aesCoefB : ∀ x < 256,
    gmul 14 (gmul 3 x) ^^^ gmul 11 (gmul 2 x) ^^^ gmul 13 x ^^^ gmul 9 x = 0 := by
  decide

/-- MixColumns inverse coefficient identity, second vanishing pattern. -/
theorem aesCoefC : ∀ x < 256,
    gmul 14 x ^^^ gmul 11 (gmul 3 x) ^^^ gmul 13 (gmul 2 x) ^^^ gmul 9 x = 0 := by
  decide

/-- MixColumns inverse coefficient identity, third vanishing pattern. -/
theorem aesCoefD : ∀ x < 256,
    gmul 14 x ^^^ gmul 11 x ^^^ gmul 13 (gmul 3 x) ^^^ gmul 9 (gmul 2 x) = 0 := by
  decide

/-- The inverse S-box inverts the S-box, which maps bytes to bytes. -/
theorem sbox_inverse : ∀ b < 256, invSboxOf (sboxOf b) = b ∧ sboxOf b < 256 := by
  decide

/-! ## AES block inversion -/

/-- The inverse S-box inverts the S-box on bytes. -/
theorem sbox_inv (b : Nat) (hb : b < 256) : invSboxOf (sboxOf b) = b :=
  (sbox_inverse b hb).1

/-- The S-box maps bytes to bytes. -/
theorem sbox_lt (b : Nat) (hb : b < 256) : sboxOf b < 256 :=
  (sbox_inverse b hb).2

/-- Xor of four bytes is a byte. -/
theorem xor4_lt {a b c d : Nat} (ha : a < 256) (hb : b < 256) (hc : c < 256)
    (hd : d < 256) : a ^^^ b ^^^ c ^^^ d < 256 :=
  byte_xor_lt (byte_xor_lt (byte_xor_lt ha hb) hc) hd

/-- Xor by the same state on the right cancels. -/
theorem xorB16_cancel_right (s k : B16) : xorB16 (xorB16 s k) k = s := by
  cases s
  cases k
  simp [xorB16, Nat.xor_cancel_right]

/-- Xor by the same state on the left cancels. -/
theorem xorB16_cancel_left (k s : B16) : xorB16 k (xorB16 k s) = s := by
  cases s
  cases k
  simp [xorB16, Nat.xor_cancel_left]

/-- Xor preserves state well-formedness. -/
theorem wf_xorB16 {a b : B16} (ha : wfB16 a) (hb : wfB16 b) :
    wfB16 (xorB16 a b) := by
  obtain ⟨a0, a1, a2, a3, a4, a5, a6, a7, a8, a9, a10, a11, a12, a13, a14, a15⟩ := ha
  obtain ⟨h0, h1, h2, h3, h4, h5, h6, h7, h8, h9, h10, h11, h12, h13, h14, h15⟩ := hb
  exact ⟨byte_xor_lt a0 h0, byte_xor_lt a1 h1, byte_xor_lt a2 h2, byte_xor_lt a3 h3,
    byte_xor_lt a4 h4, byte_xor_lt a5 h5, byte_xor_lt a6 h6, byte_xor_lt a7 h7,
    byte_xor_lt a8 h8, byte_xor_lt a9 h9, byte_xor_lt a10 h10, byte_xor_lt a11 h11,
    byte_xor_lt a12 h12, byte_xor_lt a13 h13, byte_xor_lt a14 h14, byte_xor_lt a15 h15⟩

/-- SubBytes preserves state well-formedness. -/
theorem wf_subBytesB {s : B16} (h : wfB16 s) : wfB16 (subBytesB s) := by
  obtain ⟨h0, h1, h2, h3, h4, h5, h6, h7, h8, h9, h10, h11, h12, h13, h14, h15⟩ := h
  exact ⟨sbox_lt _ h0, sbox_lt _ h1, sbox_lt _ h2, sbox_lt _ h3,
    sbox_lt _ h4, sbox_lt _ h5, sbox_lt _ h6, sbox_lt _ h7,
    sbox_lt _ h8, sbox_lt _ h9, sbox_lt _ h10, sbox_lt _ h11,
    sbox_lt _ h12, sbox_lt _ h13, sbox_lt _ h14, sbox_lt _ h15⟩

/-- ShiftRows permutes the state bytes, preserving well-formedness. -/
theorem wf_shiftRowsB {s : B16} (h : wfB16 s) : wfB16 (shiftRowsB s) := by
  obtain ⟨h0, h1, h2, h3, h4, h5, h6, h7, h8, h9, h10, h11, h12, h13, h14, h15⟩ := h
  exact ⟨h0, h5, h10, h15, h4, h9, h14, h3, h8, h13, h2, h7, h12, h1, h6, h11⟩

/-- MixColumns preserves state well-formedness. -/
theorem wf_mixColumnsB {s : B16} (h : wfB16 s) : wfB16 (mixColumnsB s) := by
  obtain ⟨h0, h1, h2, h3, h4, h5, h6, h7, h8, h9, h10, h11, h12, h13, h14, h15⟩ := h
  simp only [wfB16, mixColumnsB, mixCol]
  exact ⟨xor4_lt (gmul_lt 2 _ h0) (gmul_lt 3 _ h1) h2 h3,
    xor4_lt h0 (gmul_lt 2 _ h1) (gmul_lt 3 _ h2) h3,
    xor4_lt h0 h1 (gmul_lt 2 _ h2) (gmul_lt 3 _ h3),
    xor4_lt (gmul_lt 3 _ h0) h1 h2 (gmul_lt 2 _ h3),
    xor4_lt (gmul_lt 2 _ h4) (gmul_lt 3 _ h5) h6 h7,
    xor4_lt h4 (gmul_lt 2 _ h5) (gmul_lt 3 _ h6) h7,
    xor4_lt h4 h5 (gmul_lt 2 _ h6) (gmul_lt 3 _ h7),
    xor4_lt (gmul_lt 3 _ h4) h5 h6 (gmul_lt 2 _ h7),
    xor4_lt (gmul_lt 2 _ h8) (gmul_lt 3 _ h9) h10 h11,
    xor4_lt h8 (gmul_lt 2 _ h9) (gmul_lt 3 _ h10) h11,
    xor4_lt h8 h9 (gmul_lt 2 _ h10) (gmul_lt 3 _ h11),
    xor4_lt (gmul_lt 3 _ h8) h9 h10 (gmul_lt 2 _ h11),
    xor4_lt (gmul_lt 2 _ h12) (gmul_lt 3 _ h13) h14 h15,
    xor4_lt h12 (gmul_lt 2 _ h13) (gmul_lt 3 _ h14) h15,
    xor4_lt h12 h13 (gmul_lt 2 _ h14) (gmul_lt 3 _ h15),
    xor4_lt (gmul_lt 3 _ h12) h13 h14 (gmul_lt 2 _ h15)⟩

/-- InvShiftRows inverts ShiftRows. -/
theorem invShift_shift (s : B16) : invShiftRowsB (shiftRowsB s) = s := rfl

/-- InvSubBytes inverts SubBytes on well-formed states. -/
theorem invSub_sub {s : B16} (h : wfB16 s) : invSubBytesB (subBytesB s) = s := by
  obtain ⟨h0, h1, h2, h3, h4, h5, h6, h7, h8, h9, h10, h11, h12, h13, h14, h15⟩ := h
  cases s
  simp only [subBytesB, invSubBytesB, mapB16, B16.mk.injEq]
  exact ⟨sbox_inv _ h0, sbox_inv _ h1, sbox_inv _ h2, sbox_inv _ h3,
    sbox_inv _ h4, sbox_inv _ h5, sbox_inv _ h6, sbox_inv _ h7,
    sbox_inv _ h8, sbox_inv _ h9, sbox_inv _ h10, sbox_inv _ h11,
    sbox_inv _ h12, sbox_inv _ h13, sbox_inv _ h14, sbox_inv _ h15⟩

/-- First component of the inverse MixColumns composition. -/
theorem invMixRow1 (a b c d : Nat) (ha : a < 256) (hb : b < 256) (hc : c < 256)
    (hd : d < 256) :
    gmul 14 (gmul 2 a ^^^ gmul 3 b ^^^ c ^^^ d)
      ^^^ gmul 11 (a ^^^ gmul 2 b ^^^ gmul 3 c ^^^ d)
      ^^^ gmul 13 (a ^^^ b ^^^ gmul 2 c ^^^ gmul 3 d)
      ^^^ gmul 9 (gmul 3 a ^^^ b ^^^ c ^^^ gmul 2 d) = a := by
  rw [gmul_xor4 14 _ _ _ _ (gmul_lt 2 a ha) (gmul_lt 3 b hb) hc hd,
    gmul_xor4 11 _ _ _ _ ha (gmul_lt 2 b hb) (gmul_lt 3 c hc) hd,
    gmul_xor4 13 _ _ _ _ ha hb (gmul_lt 2 c hc) (gmul_lt 3 d hd),
    gmul_xor4 9 _ _ _ _ (gmul_lt 3 a ha) hb hc (gmul_lt 2 d hd)]
  calc _ = (gmul 14 (gmul 2 a) ^^^ gmul 11 a ^^^ gmul 13 a ^^^ gmul 9 (gmul 3 a))
        ^^^ ((gmul 14 (gmul 3 b) ^^^ gmul 11 (gmul 2 b) ^^^ gmul 13 b ^^^ gmul 9 b)
        ^^^ ((gmul 14 c ^^^ gmul 11 (gmul 3 c) ^^^ gmul 13 (gmul 2 c) ^^^ gmul 9 c)
        ^^^ (gmul 14 d ^^^ gmul 11 d ^^^ gmul 13 (gmul 3 d) ^^^ gmul 9 (gmul 2 d)))) := by
        ac_rfl
    _ = a := by
        rw [aesCoefA a ha, aesCoefB b hb, aesCoefC c hc, aesCoefD d hd,
          Nat.xor_zero, Nat.xor_zero, Nat.xor_zero]

/-- Second component of the inverse MixColumns composition. -/
theorem invMixRow2 (a b c d : Nat) (ha : a < 256) (hb : b < 256) (hc : c < 256)
    (hd : d < 256) :
    gmul 9 (gmul 2 a ^^^ gmul 3 b ^^^ c ^^^ d)
      ^^^ gmul 14 (a ^^^ gmul 2 b ^^^ gmul 3 c ^^^ d)
      ^^^ gmul 11 (a ^^^ b ^^^ gmul 2 c ^^^ gmul 3 d)
      ^^^ gmul 13 (gmul 3 a ^^^ b ^^^ c ^^^ gmul 2 d) = b := by
  rw [gmul_xor4 9 _ _ _ _ (gmul_lt 2 a ha) (gmul_lt 3 b hb) hc hd,
    gmul_xor4 14 _ _ _ _ ha (gmul_lt 2 b hb) (gmul_lt 3 c hc) hd,
    gmul_xor4 11 _ _ _ _ ha hb (gmul_lt 2 c hc) (gmul_lt 3 d hd),
    gmul_xor4 13 _ _ _ _ (gmul_lt 3 a ha) hb hc (gmul_lt 2 d hd)]
  calc _ = (gmul 14 a ^^^ gmul 11 a ^^^ gmul 13 (gmul 3 a) ^^^ gmul 9 (gmul 2 a))
        ^^^ ((gmul 14 (gmul 2 b) ^^^ gmul 11 b ^^^ gmul 13 b ^^^ gmul 9 (gmul 3 b))
        ^^^ ((gmul 14 (gmul 3 c) ^^^ gmul 11 (gmul 2 c) ^^^ gmul 13 c ^^^ gmul 9 c)
        ^^^ (gmul 14 d ^^^ gmul 11 (gmul 3 d) ^^^ gmul 13 (gmul 2 d) ^^^ gmul 9 d))) := by
        ac_rfl
    _ = b := by
        rw [aesCoefD a ha, aesCoefA b hb, aesCoefB c hc, aesCoefC d hd,
          Nat.xor_zero, Nat.xor_zero, Nat.zero_xor]

/-- Third component of the inverse MixColumns composition. -/
theorem invMixRow3 (a b c d : Nat) (ha : a < 256) (hb : b < 256) (hc : c < 256)
    (hd : d < 256) :
    gmul 13 (gmul 2 a ^^^ gmul 3 b ^^^ c ^^^ d)
      ^^^ gmul 9 (a ^^^ gmul 2 b ^^^ gmul 3 c ^^^ d)
      ^^^ gmul 14 (a ^^^ b ^^^ gmul 2 c ^^^ gmul 3 d)
      ^^^ gmul 11 (gmul 3 a ^^^ b ^^^ c ^^^ gmul 2 d) = c := by
  rw [gmul_xor4 13 _ _ _ _ (gmul_lt 2 a ha) (gmul_lt 3 b hb) hc hd,
    gmul_xor4 9 _ _ _ _ ha (gmul_lt 2 b hb) (gmul_lt 3 c hc) hd,
    gmul_xor4 14 _ _ _ _ ha hb (gmul_lt 2 c hc) (gmul_lt 3 d hd),
    gmul_xor4 11 _ _ _ _ (gmul_lt 3 a ha) hb hc (gmul_lt 2 d hd)]
  calc _ = (gmul 14 a ^^^ gmul 11 (gmul 3 a) ^^^ gmul 13 (gmul 2 a) ^^^ gmul 9 a)
        ^^^ ((gmul 14 b ^^^ gmul 11 b ^^^ gmul 13 (gmul 3 b) ^^^ gmul 9 (gmul 2 b))
        ^^^ ((gmul 14 (gmul 2 c) ^^^ gmul 11 c ^^^ gmul 13 c ^^^ gmul 9 (gmul 3 c))
        ^^^ (gmul 14 (gmul 3 d) ^^^ gmul 11 (gmul 2 d) ^^^ gmul 13 d ^^^ gmul 9 d))) := by
        ac_rfl
    _ = c := by
        rw [aesCoefC a ha, aesCoefD b hb, aesCoefA c hc, aesCoefB d hd,
          Nat.xor_zero, Nat.zero_xor, Nat.zero_xor]

/-- Fourth component of the inverse MixColumns composition. -/
theorem invMixRow4 (a b c d : Nat) (ha : a < 256) (hb : b < 256) (hc : c < 256)
    (hd : d < 256) :
    gmul 11 (gmul 2 a ^^^ gmul 3 b ^^^ c ^^^ d)
      ^^^ gmul 13 (a ^^^ gmul 2 b ^^^ gmul 3 c ^^^ d)
      ^^^ gmul 9 (a ^^^ b ^^^ gmul 2 c ^^^ gmul 3 d)
      ^^^ gmul 14 (gmul 3 a ^^^ b ^^^ c ^^^ gmul 2 d) = d := by
  rw [gmul_xor4 11 _ _ _ _ (gmul_lt 2 a ha) (gmul_lt 3 b hb) hc hd,
    gmul_xor4 13 _ _ _ _ ha (gmul_lt 2 b hb) (gmul_lt 3 c hc) hd,
    gmul_xor4 9 _ _ _ _ ha hb (gmul_lt 2 c hc) (gmul_lt 3 d hd),
    gmul_xor4 14 _ _ _ _ (gmul_lt 3 a ha) hb hc (gmul_lt 2 d hd)]
  calc _ = (gmul 14 (gmul 3 a) ^^^ gmul 11 (gmul 2 a) ^^^ gmul 13 a ^^^ gmul 9 a)
        ^^^ ((gmul 14 b ^^^ gmul 11 (gmul 3 b) ^^^ gmul 13 (gmul 2 b) ^^^ gmul 9 b)
        ^^^ ((gmul 14 c ^^^ gmul 11 c ^^^ gmul 13 (gmul 3 c) ^^^ gmul 9 (gmul 2 c))
        ^^^ (gmul 14 (gmul 2 d) ^^^ gmul 11 d ^^^ gmul 13 d ^^^ gmul 9 (gmul 3 d)))) := by
        ac_rfl
    _ = d := by
        rw [aesCoefB a ha, aesCoefC b hb, aesCoefD c hc, aesCoefA d hd,
          Nat.zero_xor, Nat.zero_xor, Nat.zero_xor]

/-- InvMixColumns inverts MixColumns on well-formed states. -/
theorem invMix_mix {s : B16} (h : wfB16 s) :
    invMixColumnsB (mixColumnsB s) = s := by
  obtain ⟨h0, h1, h2, h3, h4, h5, h6, h7, h8, h9, h10, h11, h12, h13, h14, h15⟩ := h
  cases s
  simp only [mixColumnsB, invMixColumnsB, mixCol, invMixCol, B16.mk.injEq]
  exact ⟨invMixRow1 _ _ _ _ h0 h1 h2 h3, invMixRow2 _ _ _ _ h0 h1 h2 h3,
    invMixRow3 _ _ _ _ h0 h1 h2 h3, invMixRow4 _ _ _ _ h0 h1 h2 h3,
    invMixRow1 _ _ _ _ h4 h5 h6 h7, invMixRow2 _ _ _ _ h4 h5 h6 h7,
    invMixRow3 _ _ _ _ h4 h5 h6 h7, invMixRow4 _ _ _ _ h4 h5 h6 h7,
    invMixRow1 _ _ _ _ h8 h9 h10 h11, invMixRow2 _ _ _ _ h8 h9 h10 h11,
    invMixRow3 _ _ _ _ h8 h9 h10 h11, invMixRow4 _ _ _ _ h8 h9 h10 h11,
    invMixRow1 _ _ _ _ h12 h13 h14 h15, invMixRow2 _ _ _ _ h12 h13 h14 h15,
    invMixRow3 _ _ _ _ h12 h13 h14 h15, invMixRow4 _ _ _ _ h12 h13 h14 h15⟩

/-- A middle decryption round inverts a middle encryption round. -/
theorem midRoundD_midRoundE {s : B16} (k : B16) (hs : wfB16 s) :
    midRoundD (midRoundE s k) k = s := by
  unfold midRoundE midRoundD
  rw [xorB16_cancel_right, invMix_mix (wf_shiftRowsB (wf_subBytesB hs)),
    invShift_shift, invSub_sub hs]

/-- A middle encryption round preserves well-formedness. -/
theorem wf_midRoundE {s k : B16} (hs : wfB16 s) (hk : wfB16 k) :
    wfB16 (midRoundE s k) :=
  wf_xorB16 (wf_mixColumnsB (wf_shiftRowsB (wf_subBytesB hs))) hk

/-- Folding middle encryption rounds preserves well-formedness. -/
theorem wf_foldl_midRoundE : ∀ (mids : List B16) (y : B16), wfB16 y →
    (∀ k ∈ mids, wfB16 k) → wfB16 (List.foldl midRoundE y mids) := by
  intro mids
  induction mids with
  | nil => intro y hy _; exact hy
  | cons m ms ih =>
      intro y hy hk
      rw [List.foldl_cons]
      exact ih _ (wf_midRoundE hy (hk m (List.mem_cons_self m ms)))
        (fun k hk' => hk k (List.mem_cons_of_mem m hk'))

/-- Folding the middle decryption rounds over the reversed key list
undoes the middle encryption rounds. -/
theorem foldl_midRound_cancel : ∀ (mids : List B16) (y : B16), wfB16 y →
    (∀ k ∈ mids, wfB16 k) →
    List.foldl midRoundD (List.foldl midRoundE y mids) mids.reverse = y := by
  intro mids
  induction mids with
  | nil => intro y _ _; rfl
  | cons m ms ih =>
      intro y hy hk
      rw [List.foldl_cons, List.reverse_cons, List.foldl_append,
        ih (midRoundE y m) (wf_midRoundE hy (hk m (List.mem_cons_self m ms)))
          (fun k hk' => hk k (List.mem_cons_of_mem m hk')),
        List.foldl_cons, List.foldl_nil]
      exact midRoundD_midRoundE m hy

/-- The decryption core inverts the encryption core. -/
theorem aesDecryptCore_encryptCore (k0 klast : B16) (mids : List B16) (s : B16)
    (hs : wfB16 s) (hk0 : wfB16 k0) (hmids : ∀ k ∈ mids, wfB16 k) :
    aesDecryptCore k0 mids klast (aesEncryptCore k0 mids klast s) = s := by
  unfold aesEncryptCore aesDecryptCore
  rw [xorB16_cancel_right, invShift_shift,
    invSub_sub (wf_foldl_midRoundE mids (xorB16 s k0) (wf_xorB16 hs hk0) hmids),
    foldl_midRound_cancel mids (xorB16 s k0) (wf_xorB16 hs hk0) hmids,
    xorB16_cancel_right]

/-! ## Key schedule well-formedness and block inversion -/

/-- getD from a list of elements satisfying P, with a default satisfying
P, satisfies P. -/
theorem getD_wf_of_forall {α : Type} (P : α → Prop) :
    ∀ (l : List α) (d : α), (∀ x ∈ l, P x) → P d → ∀ j, P (l.getD j d) := by
  intro l
  induction l with
  | nil => intro d _ hd j; simpa [List.getD] using hd
  | cons x xs ih =>
      intro d h hd j
      cases j with
      | zero => simpa [List.getD] using h x (List.mem_cons_self x xs)
      | succ j =>
          simpa [List.getD] using
            ih d (fun y hy => h y (List.mem_cons_of_mem x hy)) hd j

/-- Round constants are bytes. -/
theorem rcVal_lt (i : Nat) : rcVal i < 256 := by
  induction i with
  | zero => simp [rcVal]
  | succ i ih => exact xtime_lt _ ih

/-- Word xor preserves byte bounds. -/
theorem xorW_wf : ∀ (u v : List Nat), (∀ b ∈ u, b < 256) → (∀ b ∈ v, b < 256) →
    ∀ b ∈ xorW u v, b < 256 := by
  intro u
  induction u with
  | nil => intro v _ _ b hb; simp [xorW] at hb
  | cons x xs ih =>
      intro v hu hv b hb
      cases v with
      | nil => simp [xorW] at hb
      | cons y ys =>
          simp only [xorW, List.zipWith_cons_cons, List.mem_cons] at hb
          rcases hb with rfl | hb
          · exact byte_xor_lt (hu x (List.mem_cons_self x xs))
              (hv y (List.mem_cons_self y ys))
          · exact ih ys (fun b hb' => hu b (List.mem_cons_of_mem x hb'))
              (fun b hb' => hv b (List.mem_cons_of_mem y hb')) b hb

/-- RotWord preserves byte bounds. -/
theorem rotWord_wf (w : List Nat) (h : ∀ b ∈ w, b < 256) :
    ∀ b ∈ rotWord w, b < 256 := by
  cases w with
  | nil => simp [rotWord]
  | cons x xs =>
      intro b hb
      simp only [rotWord, List.mem_append, List.mem_cons, List.not_mem_nil,
        or_false] at hb
      rcases hb with hb | rfl
      · exact h b (List.mem_cons_of_mem x hb)
      · exact h b (List.mem_cons_self b xs)

/-- SubWord preserves byte bounds. -/
theorem subWord_wf (w : List Nat) (h : ∀ b ∈ w, b < 256) :
    ∀ b ∈ subWord w, b < 256 := by
  intro b hb
  rcases List.mem_map.mp hb with ⟨x, hx, rfl⟩
  exact sbox_lt x (h x hx)

/-- Key expansion preserves byte bounds of all words. -/
theorem expandWords_wf : ∀ (n : Nat) (ws : List (List Nat)),
    (∀ w ∈ ws, ∀ b ∈ w, b < 256) → ∀ w ∈ expandWords n ws, ∀ b ∈ w, b < 256 := by
  intro n
  induction n with
  | zero => intro ws h; exact h
  | succ n ih =>
      intro ws h
      unfold expandWords
      apply ih
      intro w hw
      rcases List.mem_append.mp hw with hw | hw
      · exact h w hw
      · have hw' : w = xorW (ws.getD (ws.length - 4) [])
            (if ws.length % 4 = 0
              then xorW (subWord (rotWord (ws.getD (ws.length - 1) [])))
                [rcVal (ws.length / 4 - 1), 0, 0, 0]
              else ws.getD (ws.length - 1) []) := by
          simpa using hw
        subst hw'
        apply xorW_wf
        · exact getD_wf_of_forall (fun w => ∀ b ∈ w, b < 256) ws [] h
            (by simp) _
        · split
          · apply xorW_wf
            · exact subWord_wf _ (rotWord_wf _
                (getD_wf_of_forall (fun w => ∀ b ∈ w, b < 256) ws [] h (by simp) _))
            · intro b hb
              simp only [List.mem_cons, List.not_mem_nil, or_false] at hb
              rcases hb with rfl | rfl | rfl | rfl
              · exact rcVal_lt _
              · norm_num
              · norm_num
              · norm_num
          · exact getD_wf_of_forall (fun w => ∀ b ∈ w, b < 256) ws [] h (by simp) _

/-- All key-schedule words of a well-formed key are well-formed. -/
theorem keyWords_wf (key : List Nat) (hk : ∀ b ∈ key, b < 256) :
    ∀ w ∈ keyWords key, ∀ b ∈ w, b < 256 := by
  apply expandWords_wf
  intro w hw b hb
  simp only [List.mem_cons, List.not_mem_nil, or_false] at hw
  rcases hw with rfl | rfl | rfl | rfl <;>
    exact hk b (by
      first
        | exact List.mem_of_mem_take hb
        | exact List.mem_of_mem_drop (List.mem_of_mem_take hb))

/-- The zero state is well-formed. -/
theorem wfB16_zero : wfB16 zeroB16 := by
  simp [wfB16, zeroB16]

/-- Packing a list of bytes gives a well-formed state. -/
theorem toB16_wf (l : List Nat) (h : ∀ b ∈ l, b < 256) : wfB16 (toB16 l) := by
  unfold toB16
  split
  · exact ⟨h _ (by simp), h _ (by simp), h _ (by simp), h _ (by simp),
      h _ (by simp), h _ (by simp), h _ (by simp), h _ (by simp),
      h _ (by simp), h _ (by simp), h _ (by simp), h _ (by simp),
      h _ (by simp), h _ (by simp), h _ (by simp), h _ (by simp)⟩
  · exact wfB16_zero

/-- Every round key of a well-formed key is well-formed. -/
theorem roundKeys_wf (key : List Nat) (hk : ∀ b ∈ key, b < 256) :
    ∀ k ∈ roundKeys key, wfB16 k := by
  intro k hkmem
  unfold roundKeys at hkmem
  rcases List.mem_map.mp hkmem with ⟨r, _, rfl⟩
  split
  · rename_i w0 w1 w2 w3 heq
    apply toB16_wf
    intro b hb
    have hmem : ∀ w ∈ [w0, w1, w2, w3], ∀ x ∈ w, x < 256 := by
      intro w hw
      have hw' : w ∈ ((keyWords key).drop (4 * r)).take 4 := by
        rw [heq]
        exact hw
      exact keyWords_wf key hk w
        (List.mem_of_mem_drop (List.mem_of_mem_take hw'))
    simp only [List.append_assoc, List.mem_append] at hb
    rcases hb with hb | hb | hb | hb
    · exact hmem w0 (by simp) b hb
    · exact hmem w1 (by simp) b hb
    · exact hmem w2 (by simp) b hb
    · exact hmem w3 (by simp) b hb
  · exact wfB16_zero

/-- AES-128 block decryption inverts block encryption for well-formed
key bytes and a well-formed block. -/
theorem aesDecrypt_aesEncrypt (key : List Nat) (blk : B16)
    (hkey : ∀ b ∈ key, b < 256) (hblk : wfB16 blk) :
    aesDecryptBlock key (aesEncryptBlock key blk) = blk := by
  unfold aesEncryptBlock aesDecryptBlock
  dsimp only
  exact aesDecryptCore_encryptCore _ _ _ _ hblk
    (getD_wf_of_forall wfB16 _ zeroB16 (roundKeys_wf key hkey) wfB16_zero 0)
    (fun k hkm => roundKeys_wf key hkey k
      (List.mem_of_mem_drop (List.mem_of_mem_take hkm)))

/-- AES-128 block encryption preserves well-formedness. -/
theorem wf_aesEncryptBlock (key : List Nat) (blk : B16)
    (hkey : ∀ b ∈ key, b < 256) (hblk : wfB16 blk) :
    wfB16 (aesEncryptBlock key blk) := by
  unfold aesEncryptBlock aesEncryptCore
  dsimp only
  exact wf_xorB16
    (wf_shiftRowsB (wf_subBytesB (wf_foldl_midRoundE _ _
      (wf_xorB16 hblk
        (getD_wf_of_forall wfB16 _ zeroB16 (roundKeys_wf key hkey) wfB16_zero 0))
      (fun k hkm => roundKeys_wf key hkey k
        (List.mem_of_mem_drop (List.mem_of_mem_take hkm))))))
    (getD_wf_of_forall wfB16 _ zeroB16 (roundKeys_wf key hkey) wfB16_zero 10)

/-- CBC decryption inverts CBC encryption blockwise. -/
theorem cbcDecrypt_cbcEncrypt (key : List Nat) (hkey : ∀ b ∈ key, b < 256) :
    ∀ (ps : List B16) (prev : B16), wfB16 prev → (∀ p ∈ ps, wfB16 p) →
      cbcDecryptB key prev (cbcEncryptB key prev ps) = ps := by
  intro ps
  induction ps with
  | nil => intro prev _ _; rfl
  | cons p rest ih =>
      intro prev hprev hps
      have hp : wfB16 p := hps p (List.mem_cons_self p rest)
      show cbcDecryptB key prev
        (aesEncryptBlock key (xorB16 prev p)
          :: cbcEncryptB key (aesEncryptBlock key (xorB16 prev p)) rest) = p :: rest
      rw [cbcDecryptB]
      rw [aesDecrypt_aesEncrypt key _ hkey (wf_xorB16 hprev hp),
        xorB16_cancel_left,
        ih (aesEncryptBlock key (xorB16 prev p))
          (wf_aesEncryptBlock key _ hkey (wf_xorB16 hprev hp))
          (fun q hq => hps q (List.mem_cons_of_mem p hq))]

/-! ## Bytes, blocks and padding -/

/-- The byte list of a state has 16 entries. -/
theorem b16ToBytes_length (s : B16) : (b16ToBytes s).length = 16 := rfl

/-- Repacking the bytes of a state gives the state back. -/
theorem toB16_b16ToBytes (s : B16) : toB16 (b16ToBytes s) = s := rfl

/-- The bytes of a well-formed state are bytes. -/
theorem wf_b16ToBytes {s : B16} (h : wfB16 s) : ∀ b ∈ b16ToBytes s, b < 256 := by
  obtain ⟨h0, h1, h2, h3, h4, h5, h6, h7, h8, h9, h10, h11, h12, h13, h14, h15⟩ := h
  intro b hb
  simp only [b16ToBytes, List.mem_cons, List.not_mem_nil, or_false] at hb
  rcases hb with rfl | rfl | rfl | rfl | rfl | rfl | rfl | rfl | rfl | rfl | rfl
    | rfl | rfl | rfl | rfl | rfl <;> assumption

/-- Unpacking a block list gives bytes of a well-formed block list. -/
theorem blocksToBytes_wf : ∀ (bls : List B16), (∀ blk ∈ bls, wfB16 blk) →
    ∀ b ∈ blocksToBytes bls, b < 256 := by
  intro bls
  induction bls with
  | nil => intro _ b hb; simp [blocksToBytes] at hb
  | cons blk rest ih =>
      intro h b hb
      simp only [blocksToBytes, List.mem_append] at hb
      rcases hb with hb | hb
      · exact wf_b16ToBytes (h blk (List.mem_cons_self blk rest)) b hb
      · exact ih (fun q hq => h q (List.mem_cons_of_mem blk hq)) b hb

/-- Unpacking n blocks gives 16 n bytes. -/
theorem blocksToBytes_length : ∀ bls : List B16,
    (blocksToBytes bls).length = 16 * bls.length := by
  intro bls
  induction bls with
  | nil => rfl
  | cons blk rest ih =>
      simp only [blocksToBytes, List.length_append, b16ToBytes_length, ih,
        List.length_cons]
      ring

/-- Splitting unpacked blocks gives the blocks back. -/
theorem bytesToBlocks_blocksToBytes : ∀ bls : List B16,
    bytesToBlocks (blocksToBytes bls) = bls := by
  intro bls
  induction bls with
  | nil => rw [blocksToBytes, bytesToBlocks]; simp
  | cons blk rest ih =>
      show bytesToBlocks (b16ToBytes blk ++ blocksToBytes rest) = blk :: rest
      rw [bytesToBlocks, if_neg (by simp [b16ToBytes])]
      rw [show (16 : Nat) = (b16ToBytes blk).length from rfl, List.take_left,
        List.drop_left, toB16_b16ToBytes, ih]

/-- A 16-byte list repacks to its bytes. -/
theorem b16ToBytes_toB16 (l : List Nat) (h : l.length = 16) :
    b16ToBytes (toB16 l) = l := by
  rcases l with _ | ⟨a0, _ | ⟨a1, _ | ⟨a2, _ | ⟨a3, _ | ⟨a4, _ | ⟨a5, _ | ⟨a6,
    _ | ⟨a7, _ | ⟨a8, _ | ⟨a9, _ | ⟨a10, _ | ⟨a11, _ | ⟨a12, _ | ⟨a13,
    _ | ⟨a14, _ | ⟨a15, _ | ⟨a16, rest⟩⟩⟩⟩⟩⟩⟩⟩⟩⟩⟩⟩⟩⟩⟩⟩⟩
  all_goals first
    | rfl
    | (simp only [List.length_cons, List.length_nil] at h; omega)

/-- The blocks of a well-formed byte list are well-formed. -/
theorem bytesToBlocks_wf : ∀ (bs : List Nat), (∀ b ∈ bs, b < 256) →
    ∀ blk ∈ bytesToBlocks bs, wfB16 blk := by
  intro bs
  induction bs using bytesToBlocks.induct with
  | case1 => intro _ blk hblk; rw [bytesToBlocks] at hblk; simp at hblk
  | case2 bs hne ih =>
      intro h blk hblk
      rw [bytesToBlocks, if_neg hne] at hblk
      rcases List.mem_cons.mp hblk with rfl | hblk
      · exact toB16_wf _ (fun b hb => h b (List.mem_of_mem_take hb))
      · exact ih (fun b hb => h b (List.mem_of_mem_drop hb)) blk hblk

/-- Splitting a block-aligned byte list and unpacking gives it back. -/
theorem blocksToBytes_bytesToBlocks : ∀ (bs : List Nat), bs.length % 16 = 0 →
    blocksToBytes (bytesToBlocks bs) = bs := by
  intro bs
  induction bs using bytesToBlocks.induct with
  | case1 => intro _; rw [bytesToBlocks]; simp [blocksToBytes]
  | case2 bs hne ih =>
      intro hlen
      have hge : 16 ≤ bs.length := by
        have hpos := List.length_pos.mpr hne
        omega
      rw [bytesToBlocks, if_neg hne]
      show b16ToBytes (toB16 (bs.take 16)) ++ blocksToBytes (bytesToBlocks (bs.drop 16)) = bs
      rw [b16ToBytes_toB16 _ (by simp [List.length_take]; omega),
        ih (by simp [List.length_drop]; omega), List.take_append_drop]

/-! ## PKCS#7 round trip -/

/-- The last entry of a non-empty replicate. -/
theorem replicate_getLast? (k : Nat) (x : Nat) (hk : k ≠ 0) :
    (List.replicate k x).getLast? = some x := by
  induction k with
  | zero => exact absurd rfl hk
  | succ k ih =>
      cases k with
      | zero => rfl
      | succ k =>
          rw [List.replicate_succ, List.replicate_succ, List.getLast?_cons_cons,
            ← List.replicate_succ]
          exact ih (by omega)

/-- Every entry of a replicate satisfies the test of its value. -/
theorem replicate_all_eq (k : Nat) (x : Nat) :
    (List.replicate k x).all (fun b => b == x) = true := by
  induction k with
  | zero => rfl
  | succ k ih => simp [List.replicate_succ, ih]

/-- Removing PKCS#7 padding undoes adding it. -/
theorem pkcs7Unpad_pad (bs : List Nat) : pkcs7Unpad (pkcs7Pad bs) = some bs := by
  unfold pkcs7Pad pkcs7Unpad
  have hmod : bs.length % 16 < 16 := Nat.mod_lt _ (by norm_num)
  set n := 16 - bs.length % 16 with hn
  have hn1 : n ≠ 0 := by omega
  have hlast : (bs ++ List.replicate n n).getLast? = some n := by
    rw [List.getLast?_append, replicate_getLast? n n hn1]
    rfl
  rw [hlast]
  dsimp only
  have hlen : (bs ++ List.replicate n n).length = bs.length + n := by
    simp
  have hcond : 1 ≤ n ∧ n ≤ 16 ∧ n ≤ (bs ++ List.replicate n n).length
      ∧ ((bs ++ List.replicate n n).drop
          ((bs ++ List.replicate n n).length - n)).all (fun b => b == n) = true := by
    refine ⟨by omega, by omega, by rw [hlen]; omega, ?_⟩
    rw [hlen, show bs.length + n - n = bs.length from by omega, List.drop_left]
    exact replicate_all_eq n n
  rw [if_pos hcond, hlen, show bs.length + n - n = bs.length from by omega,
    List.take_left]

/-! ## Base64 round trip and decode bounds -/

/-- Decoding an alphabet character of a sextet gives the sextet back. -/
theorem b64CharVal_b64Char : ∀ n < 64, b64CharVal (b64Char n) = some n := by
  decide

/-- Every decoded sextet is below 64. -/
theorem b64CharVal_lt (c : Char) (v : Nat) (h : b64CharVal c = some v) : v < 64 := by
  unfold b64CharVal at h
  split_ifs at h <;> cases h <;> omega

/-- Reassembled bytes of sextets are bytes. -/
theorem b64SextetsToBytes_wf : ∀ (ss : List Nat), (∀ x ∈ ss, x < 64) →
    ∀ b ∈ b64SextetsToBytes ss, b < 256 := by
  intro ss
  induction ss using b64SextetsToBytes.induct with
  | case1 a b c d rest ih =>
      intro h x hx
      have ha := h a (by simp)
      have hb := h b (by simp)
      have hc := h c (by simp)
      have hd := h d (by simp)
      rw [b64SextetsToBytes] at hx
      rcases List.mem_cons.mp hx with rfl | hx
      · omega
      rcases List.mem_cons.mp hx with rfl | hx
      · omega
      rcases List.mem_cons.mp hx with rfl | hx
      · omega
      · exact ih (fun y hy => h y (by simp [hy])) x hx
  | case2 a b =>
      intro h x hx
      have ha := h a (by simp)
      have hb := h b (by simp)
      rw [b64SextetsToBytes] at hx
      rcases List.mem_cons.mp hx with rfl | hx
      · omega
      · simp at hx
  | case3 a b c =>
      intro h x hx
      have ha := h a (by simp)
      have hb := h b (by simp)
      have hc := h c (by simp)
      rw [b64SextetsToBytes] at hx
      rcases List.mem_cons.mp hx with rfl | hx
      · omega
      rcases List.mem_cons.mp hx with rfl | hx
      · omega
      · simp at hx
  | case4 ss h1 h2 h3 =>
      intro h x hx
      rw [b64SextetsToBytes] at hx
      · simp at hx
      · exact h1
      · exact h2
      · exact h3

/-- Every byte the lenient decoder produces is a byte. -/
theorem nodeB64Decode_wf (s : String) : ∀ b ∈ nodeB64Decode s, b < 256 := by
  unfold nodeB64Decode
  apply b64SextetsToBytes_wf
  intro x hx
  rcases List.mem_filterMap.mp hx with ⟨c, _, hc⟩
  exact b64CharVal_lt c x hc

/-- The suffix bytes are bytes. -/
theorem suffix_wf : ∀ b ∈ SUFFIX_BYTES, b < 256 := by decide

/-- The derived cipher key consists of bytes. -/
theorem deriveKeyFromSec_wf (s : String) : ∀ b ∈ deriveKeyFromSec s, b < 256 := by
  have hkm : ∀ b ∈ nodeB64Decode s ++ SUFFIX_BYTES, b < 256 := by
    intro b hb
    rcases List.mem_append.mp hb with hb | hb
    · exact nodeB64Decode_wf s b hb
    · exact suffix_wf b hb
  unfold deriveKeyFromSec
  dsimp only
  intro b hb
  split at hb
  · rcases List.mem_append.mp hb with hb | hb
    · exact hkm b hb
    · rw [List.eq_of_mem_replicate hb]
      norm_num
  · split at hb
    · exact hkm b (List.mem_of_mem_take hb)
    · exact hkm b hb

/-- An encoded byte list decodes to itself. -/
theorem base64_roundtrip : ∀ (bs : List Nat), (∀ b ∈ bs, b < 256) →
    nodeB64Decode (base64Encode bs) = bs := by
  have hdata : ∀ cs : List Char, (String.mk cs).data = cs := fun _ => rfl
  intro bs
  induction bs using base64EncodeChars.induct with
  | case1 a b c rest ih =>
      intro h
      have ha := h a (by simp)
      have hb := h b (by simp)
      have hc := h c (by simp)
      unfold nodeB64Decode base64Encode at ih ⊢
      rw [hdata] at ih ⊢
      rw [base64EncodeChars]
      simp only [List.filterMap_cons,
        b64CharVal_b64Char (a / 4) (by omega),
        b64CharVal_b64Char ((a % 4) * 16 + b / 16) (by omega),
        b64CharVal_b64Char ((b % 16) * 4 + c / 64) (by omega),
        b64CharVal_b64Char (c % 64) (by omega)]
      rw [b64SextetsToBytes]
      rw [ih (fun y hy => h y (by simp [hy]))]
      refine congrArg₂ _ (by omega) (congrArg₂ _ (by omega) (congrArg₂ _ (by omega) rfl))
  | case2 a b =>
      intro h
      have ha := h a (by simp)
      have hb := h b (by simp)
      unfold nodeB64Decode base64Encode
      rw [hdata, base64EncodeChars]
      simp only [List.filterMap_cons,
        b64CharVal_b64Char (a / 4) (by omega),
        b64CharVal_b64Char ((a % 4) * 16 + b / 16) (by omega),
        b64CharVal_b64Char ((b % 16) * 4) (by omega)]
      rw [show b64CharVal '=' = none from rfl]
      rw [List.filterMap_nil, b64SextetsToBytes]
      refine congrArg₂ _ (by omega) (congrArg₂ _ (by omega) rfl)
  | case3 a =>
      intro h
      have ha := h a (by simp)
      unfold nodeB64Decode base64Encode
      rw [hdata, base64EncodeChars]
      simp only [List.filterMap_cons,
        b64CharVal_b64Char (a / 4) (by omega),
        b64CharVal_b64Char ((a % 4) * 16) (by omega)]
      rw [show b64CharVal '=' = none from rfl]
      rw [List.filterMap_nil, b64SextetsToBytes]
      refine congrArg₂ _ (by omega) rfl
  | case4 =>
      intro _
      rfl

/-- Encoding a non-empty byte list gives a non-empty string. -/
theorem base64Encode_ne_empty (bs : List Nat) (h : bs ≠ []) :
    base64Encode bs ≠ "" := by
  unfold base64Encode
  intro hcontra
  have hchars : base64EncodeChars bs = [] := by
    have := congrArg String.data hcontra
    simpa using this
  cases bs with
  | nil => exact h rfl
  | cons a t =>
      cases t with
      | nil => simp [base64EncodeChars] at hchars
      | cons b t2 =>
          cases t2 with
          | nil => simp [base64EncodeChars] at hchars
          | cons c t3 => simp [base64EncodeChars] at hchars

/-! ## CBC byte-level round trip -/

/-- CBC encryption outputs well-formed blocks. -/
theorem wf_cbcEncryptB (key : List Nat) (hkey : ∀ b ∈ key, b < 256) :
    ∀ (ps : List B16) (prev : B16), wfB16 prev → (∀ p ∈ ps, wfB16 p) →
      ∀ c ∈ cbcEncryptB key prev ps, wfB16 c := by
  intro ps
  induction ps with
  | nil => intro prev _ _ c hc; simp [cbcEncryptB] at hc
  | cons p rest ih =>
      intro prev hprev hps c hc
      simp only [cbcEncryptB, List.mem_cons] at hc
      have hp : wfB16 p := hps p (List.mem_cons_self p rest)
      rcases hc with rfl | hc
      · exact wf_aesEncryptBlock key _ hkey (wf_xorB16 hprev hp)
      · exact ih (aesEncryptBlock key (xorB16 prev p))
          (wf_aesEncryptBlock key _ hkey (wf_xorB16 hprev hp))
          (fun q hq => hps q (List.mem_cons_of_mem p hq)) c hc

/-- CBC encryption preserves the block count. -/
theorem cbcEncryptB_length (key : List Nat) :
    ∀ (ps : List B16) (prev : B16), (cbcEncryptB key prev ps).length = ps.length := by
  intro ps
  induction ps with
  | nil => intro prev; rfl
  | cons p rest ih =>
      intro prev
      simp only [cbcEncryptB, List.length_cons, ih]

/-- Padded plaintext has only bytes. -/
theorem pkcs7Pad_wf (bs : List Nat) (h : ∀ b ∈ bs, b < 256) :
    ∀ b ∈ pkcs7Pad bs, b < 256 := by
  intro b hb
  rcases List.mem_append.mp hb with hb | hb
  · exact h b hb
  · rw [List.eq_of_mem_replicate hb]
    have := Nat.mod_lt bs.length (show 0 < 16 by norm_num)
    omega

/-- Padded plaintext is block aligned. -/
theorem pkcs7Pad_length_mod (bs : List Nat) : (pkcs7Pad bs).length % 16 = 0 := by
  have := Nat.mod_lt bs.length (show 0 < 16 by norm_num)
  simp only [pkcs7Pad, List.length_append, List.length_replicate]
  omega

/-- Padded plaintext is non-empty. -/
theorem pkcs7Pad_ne_nil (bs : List Nat) : pkcs7Pad bs ≠ [] := by
  intro hcontra
  have := congrArg List.length hcontra
  have hlt := Nat.mod_lt bs.length (show 0 < 16 by norm_num)
  simp only [pkcs7Pad, List.length_append, List.length_replicate,
    List.length_nil] at this
  omega

/-- Splitting a non-empty byte list gives blocks. -/
theorem bytesToBlocks_ne_nil (bs : List Nat) (h : bs ≠ []) :
    bytesToBlocks bs ≠ [] := by
  rw [bytesToBlocks, if_neg h]
  simp

/-- Unpacking a non-empty block list gives bytes. -/
theorem blocksToBytes_ne_nil (bls : List B16) (h : bls ≠ []) :
    blocksToBytes bls ≠ [] := by
  cases bls with
  | nil => exact absurd rfl h
  | cons b rest =>
      show b16ToBytes b ++ blocksToBytes rest ≠ []
      simp [b16ToBytes]

/-- The byte-level CBC decryption inverts the byte-level encryption for
well-formed key and plaintext bytes. -/
theorem aesCbcDecrypt_encrypt (key pt : List Nat)
    (hkey : ∀ b ∈ key, b < 256) (hpt : ∀ b ∈ pt, b < 256) :
    aesCbcDecryptBytes key key (aesCbcEncryptBytes key key pt) = some pt := by
  have hpadwf := pkcs7Pad_wf pt hpt
  have hblocks := bytesToBlocks_wf (pkcs7Pad pt) hpadwf
  have henc := wf_cbcEncryptB key hkey (bytesToBlocks (pkcs7Pad pt)) (toB16 key)
    (toB16_wf key hkey) hblocks
  have hne : cbcEncryptB key (toB16 key) (bytesToBlocks (pkcs7Pad pt)) ≠ [] := by
    intro hcontra
    have hlen := cbcEncryptB_length key (bytesToBlocks (pkcs7Pad pt)) (toB16 key)
    rw [hcontra] at hlen
    exact bytesToBlocks_ne_nil _ (pkcs7Pad_ne_nil pt)
      (List.length_eq_zero.mp hlen.symm)
  unfold aesCbcEncryptBytes aesCbcDecryptBytes
  rw [if_pos ⟨blocksToBytes_ne_nil _ hne, by rw [blocksToBytes_length]; omega⟩,
    bytesToBlocks_blocksToBytes,
    cbcDecrypt_cbcEncrypt key hkey _ _ (toB16_wf key hkey) hblocks,
    blocksToBytes_bytesToBlocks _ (pkcs7Pad_length_mod pt), pkcs7Unpad_pad]

/-- Decrypting the encoded encryption of a well-formed plaintext returns
the plaintext. -/
theorem decryptB64_encryptB64 (pt : List Nat) (sec : String)
    (hpt : ∀ b ∈ pt, b < 256) :
    decryptB64 (base64Encode (aesCbcEncryptBytes (deriveKeyFromSec sec)
      (deriveKeyFromSec sec) pt)) sec = .ok pt := by
  have hkey := deriveKeyFromSec_wf sec
  have hctwf : ∀ b ∈ aesCbcEncryptBytes (deriveKeyFromSec sec)
      (deriveKeyFromSec sec) pt, b < 256 := by
    unfold aesCbcEncryptBytes
    exact blocksToBytes_wf _ (wf_cbcEncryptB _ hkey _ _ (toB16_wf _ hkey)
      (bytesToBlocks_wf _ (pkcs7Pad_wf pt hpt)))
  have hctne : aesCbcEncryptBytes (deriveKeyFromSec sec) (deriveKeyFromSec sec) pt
      ≠ [] := by
    unfold aesCbcEncryptBytes
    apply blocksToBytes_ne_nil
    intro hcontra
    have hlen := cbcEncryptB_length (deriveKeyFromSec sec)
      (bytesToBlocks (pkcs7Pad pt)) (toB16 (deriveKeyFromSec sec))
    rw [hcontra] at hlen
    exact bytesToBlocks_ne_nil _ (pkcs7Pad_ne_nil pt)
      (List.length_eq_zero.mp hlen.symm)
  unfold decryptB64
  rw [if_neg (base64Encode_ne_empty _ hctne)]
  dsimp only
  rw [base64_roundtrip _ hctwf, aesCbcDecrypt_encrypt _ _ hkey hpt]

/-! ## Decimal literals round trip -/

/-- Every byte of a decimal rendering is a digit byte. -/
theorem natDecimalBytes_all_digit (n : Nat) :
    ∀ b ∈ natDecimalBytes n, 48 ≤ b ∧ b ≤ 57 := by
  intro b hb
  unfold natDecimalBytes at hb
  split at hb
  · simp only [List.mem_singleton] at hb
    omega
  · rw [List.mem_reverse] at hb
    rcases List.mem_map.mp hb with ⟨d, hd, rfl⟩
    have := Nat.digits_lt_base (by norm_num) hd
    omega

/-- A decimal rendering is non-empty. -/
theorem natDecimalBytes_ne_nil (n : Nat) : natDecimalBytes n ≠ [] := by
  unfold natDecimalBytes
  split
  · simp
  · simp only [ne_eq, List.reverse_eq_nil_iff, List.map_eq_nil_iff]
    exact Nat.digits_ne_nil_iff_ne_zero.mpr (by assumption)

/-- A decimal rendering starts with a digit byte. -/
theorem natDecimalBytes_head_cases (n : Nat) :
    ∃ hd tl, natDecimalBytes n = hd :: tl ∧ 48 ≤ hd ∧ hd ≤ 57 := by
  cases hcase : natDecimalBytes n with
  | nil => exact absurd hcase (natDecimalBytes_ne_nil n)
  | cons hd tl =>
      refine ⟨hd, tl, rfl, ?_⟩
      have := natDecimalBytes_all_digit n hd (by rw [hcase]; simp)
      omega

/-- A decimal rendering has no redundant leading zero. -/
theorem natDecimalBytes_no_leading_zero (n : Nat) :
    ¬(1 < (natDecimalBytes n).length ∧ (natDecimalBytes n).head? = some 48) := by
  by_cases hn : n = 0
  · subst hn
    simp [natDecimalBytes]
  · rintro ⟨_, hhead⟩
    unfold natDecimalBytes at hhead
    rw [if_neg hn, List.head?_reverse] at hhead
    rcases List.eq_nil_or_concat (Nat.digits 10 n) with hnil | ⟨L, d, hLd⟩
    · exact Nat.digits_ne_nil_iff_ne_zero.mpr hn hnil
    · rw [List.concat_eq_append] at hLd
      have hdne : d ≠ 0 := by
        have hlast := Nat.getLast_digit_ne_zero 10 hn
        rw [show (Nat.digits 10 n).getLast
            (Nat.digits_ne_nil_iff_ne_zero.mpr hn) = d from by
          simp only [hLd]
          exact List.getLast_concat L]  at hlast
        exact hlast
      rw [hLd, List.map_append, List.map_cons, List.map_nil,
        List.getLast?_concat] at hhead
      have : d + 48 = 48 := by
        injection hhead
      omega

/-- takeWhile and dropWhile split an append whose left part satisfies
the test and whose right part starts failing it. -/
theorem span_append (p : Nat → Bool) : ∀ (l1 l2 : List Nat),
    (∀ b ∈ l1, p b = true) → (∀ b, l2.head? = some b → p b = false) →
    (l1 ++ l2).takeWhile p = l1 ∧ (l1 ++ l2).dropWhile p = l2 := by
  intro l1
  induction l1 with
  | nil =>
      intro l2 _ hh
      cases l2 with
      | nil => exact ⟨rfl, rfl⟩
      | cons b t =>
          constructor
          · rw [List.nil_append, List.takeWhile_cons, if_neg (by simp [hh b rfl])]
          · rw [List.nil_append, List.dropWhile_cons, if_neg (by simp [hh b rfl])]
  | cons x xs ih =>
      intro l2 hall hh
      have hx : p x = true := hall x (List.mem_cons_self x xs)
      obtain ⟨ht, hd⟩ := ih l2 (fun b hb => hall b (List.mem_cons_of_mem x hb)) hh
      constructor
      · rw [List.cons_append, List.takeWhile_cons, if_pos hx, ht]
      · rw [List.cons_append, List.dropWhile_cons, if_pos hx, hd]

/-- Folding decimal digits over the reversed digit list recovers the
value. -/
theorem foldl_digits_reverse : ∀ (L : List Nat) (a : Nat),
    List.foldl (fun acc d => acc * 10 + d) a L.reverse
      = a * 10 ^ L.length + Nat.ofDigits 10 L := by
  intro L
  induction L with
  | nil => intro a; simp [Nat.ofDigits]
  | cons d L' ih =>
      intro a
      rw [List.reverse_cons, List.foldl_append, ih a, List.foldl_cons,
        List.foldl_nil, Nat.ofDigits_cons, List.length_cons, Nat.pow_succ]
      ring

/-- Parsing the decimal rendering of n followed by a non-digit boundary
returns n. -/
theorem parseNat_natDecimalBytes (n : Nat) (rest : List Nat)
    (hrest : ∀ b, rest.head? = some b → isDigitByte b = false) :
    parseNatBytes (natDecimalBytes n ++ rest) = some (n, rest) := by
  have hall : ∀ b ∈ natDecimalBytes n, isDigitByte b = true := by
    intro b hb
    have := natDecimalBytes_all_digit n b hb
    simp only [isDigitByte, decide_eq_true_eq]
    exact (by omega : 48 ≤ b ∧ b ≤ 57)
  obtain ⟨htake, hdrop⟩ := span_append isDigitByte _ rest hall hrest
  unfold parseNatBytes
  rw [htake, hdrop, if_neg (by simp [natDecimalBytes_ne_nil n]),
    if_neg (natDecimalBytes_no_leading_zero n)]
  refine congrArg some (congrArg₂ _ ?_ rfl)
  unfold natDecimalBytes
  split
  · subst n
    rfl
  · rw [← List.map_reverse, List.foldl_map]
    have hfun : (fun (a d : Nat) => a * 10 + (d + 48 - 48))
        = fun a d => a * 10 + d := by
      funext a d
      omega
    rw [hfun, foldl_digits_reverse, Nat.ofDigits_digits]
    simp

/-! ## JSON string literals round trip -/

/-- Reading back a hex digit gives its value. -/
theorem hexVal_hexDigitByte (d : Nat) (h : d < 16) :
    hexVal (hexDigitByte d) = some d := by
  unfold hexDigitByte hexVal
  split
  · rw [if_pos (by omega)]
    exact congrArg some (by omega)
  · rw [if_neg (by omega), if_pos (by omega)]
    exact congrArg some (by omega)

/-- Parsing the escaped serialization of a string body followed by the
closing quote returns the string. -/
theorem parseStringBody_serialize : ∀ (s rest : List Nat),
    parseStringBody (s.flatMap escapeStringByte ++ 34 :: rest) = some (s, rest) := by
  intro s
  induction s with
  | nil =>
      intro rest
      rw [List.flatMap_nil, List.nil_append, parseStringBody.eq_def]
      dsimp only
      rw [if_pos rfl]
  | cons b s' ih =>
      intro rest
      rw [List.flatMap_cons, List.append_assoc]
      by_cases h34 : b = 34
      · subst h34
        rw [show escapeStringByte 34 = [92, 34] from rfl,
          show ([92, 34] : List Nat) ++ (s'.flatMap escapeStringByte ++ 34 :: rest)
            = 92 :: 34 :: (s'.flatMap escapeStringByte ++ 34 :: rest) from rfl,
          parseStringBody.eq_def]
        dsimp only
        rw [if_neg (by norm_num), if_pos rfl, if_pos rfl, ih rest]
        rfl
      · by_cases h92 : b = 92
        · subst h92
          rw [show escapeStringByte 92 = [92, 92] from rfl,
            show ([92, 92] : List Nat) ++ (s'.flatMap escapeStringByte ++ 34 :: rest)
              = 92 :: 92 :: (s'.flatMap escapeStringByte ++ 34 :: rest) from rfl,
            parseStringBody.eq_def]
          dsimp only
          rw [if_neg (by norm_num), if_pos rfl, if_neg (by norm_num), if_pos rfl,
            ih rest]
          rfl
        · by_cases hctl : b < 32
          · rw [show escapeStringByte b
                = [92, 117, 48, 48, hexDigitByte (b / 16), hexDigitByte (b % 16)]
              from by unfold escapeStringByte; rw [if_neg h34, if_neg h92, if_pos hctl]]
            rw [show ([92, 117, 48, 48, hexDigitByte (b / 16),
                hexDigitByte (b % 16)] : List Nat)
                ++ (s'.flatMap escapeStringByte ++ 34 :: rest)
              = 92 :: 117 :: 48 :: 48 :: hexDigitByte (b / 16)
                :: hexDigitByte (b % 16)
                :: (s'.flatMap escapeStringByte ++ 34 :: rest) from rfl]
            rw [parseStringBody.eq_def]
            dsimp only
            rw [if_neg (by norm_num), if_pos rfl, if_neg (by norm_num),
              if_neg (by norm_num), if_neg (by norm_num), if_neg (by norm_num),
              if_neg (by norm_num), if_neg (by norm_num), if_neg (by norm_num),
              if_neg (by norm_num), if_pos rfl]
            rw [show hexVal 48 = some 0 from rfl,
              hexVal_hexDigitByte (b / 16) (by omega),
              hexVal_hexDigitByte (b % 16) (by omega)]
            dsimp only
            rw [ih rest]
            rw [show 0 * 4096 + 0 * 256 + b / 16 * 16 + b % 16 = b from by omega]
            rw [show utf8EncodeCodepoint b = [b] from by
              unfold utf8EncodeCodepoint; rw [if_pos (by omega)]]
            rfl
          · rw [show escapeStringByte b = [b] from by
              unfold escapeStringByte; rw [if_neg h34, if_neg h92, if_neg hctl]]
            rw [List.singleton_append, parseStringBody.eq_def]
            dsimp only
            rw [if_neg h34, if_neg h92, if_pos (by omega), ih rest]
            rfl

/-! ## JSON values round trip -/

/-- One-item serialization. -/
theorem serializeItems_singleton (x : Json) : serializeItems [x] = serializeJson x := rfl

/-- Two-or-more-item serialization. -/
theorem serializeItems_cons₂ (x y : Json) (ys : List Json) :
    serializeItems (x :: y :: ys) = serializeJson x ++ 44 :: serializeItems (y :: ys) := rfl

/-- One-field serialization. -/
theorem serializeFields_singleton (k : List Nat) (v : Json) :
    serializeFields [(k, v)] = serializeStrBytes k ++ 58 :: serializeJson v := rfl

/-- Two-or-more-field serialization. -/
theorem serializeFields_cons₂ (k : List Nat) (v : Json) (g : List Nat × Json)
    (fs : List (List Nat × Json)) :
    serializeFields ((k, v) :: g :: fs)
      = serializeStrBytes k ++ 58 :: serializeJson v ++ 44 :: serializeFields (g :: fs) := rfl

/-- A non-empty item list serializes to the first value followed by a
tail. -/
theorem serializeItems_head (x : Json) (xs : List Json) :
    ∃ t, serializeItems (x :: xs) = serializeJson x ++ t := by
  cases xs with
  | nil => exact ⟨[], by rw [serializeItems_singleton, List.append_nil]⟩
  | cons y ys => exact ⟨44 :: serializeItems (y :: ys), serializeItems_cons₂ x y ys⟩

/-- Serialized values start with a byte that is not whitespace, not a
closing bracket and not a closing brace. -/
theorem serializeJson_head_cases (v : Json) :
    ∃ hd tl, serializeJson v = hd :: tl ∧ isWsByte hd = false
      ∧ hd ≠ 93 ∧ hd ≠ 125 := by
  cases v with
  | null => exact ⟨110, _, rfl, by decide, by decide, by decide⟩
  | bool b =>
      cases b with
      | false => exact ⟨102, _, rfl, by decide, by decide, by decide⟩
      | true => exact ⟨116, _, rfl, by decide, by decide, by decide⟩
  | num n =>
      cases n with
      | ofNat m =>
          obtain ⟨hd, tl, hser, h1, h2⟩ := natDecimalBytes_head_cases m
          refine ⟨hd, tl, ?_, ?_, by omega, by omega⟩
          · rw [show serializeJson (Json.num (Int.ofNat m)) = natDecimalBytes m
              from rfl, hser]
          · simp only [isWsByte, decide_eq_false_iff_not]
            omega
      | negSucc m => exact ⟨45, _, rfl, by decide, by decide, by decide⟩
  | str s => exact ⟨34, _, rfl, by decide, by decide, by decide⟩
  | arr items => exact ⟨91, _, rfl, by decide, by decide, by decide⟩
  | obj fields => exact ⟨123, _, rfl, by decide, by decide, by decide⟩

/-- Parsing inverts serialization: one value with a fuel bound by its
byte length, and the item and field loops of non-empty arrays and
objects up to their closing bracket. -/
theorem parse_serialize_fuel : ∀ fuel : Nat,
    (∀ (v : Json) (rest : List Nat), (serializeJson v).length < fuel →
      (∀ b, rest.head? = some b → isDigitByte b = false) →
      parseVal fuel (serializeJson v ++ rest) = some (v, rest))
    ∧ (∀ (items : List Json) (rest : List Nat), items ≠ [] →
      (serializeItems items).length + 1 < fuel →
      parseItemsRest fuel (serializeItems items ++ 93 :: rest) = some (items, rest))
    ∧ (∀ (fields : List (List Nat × Json)) (rest : List Nat), fields ≠ [] →
      (serializeFields fields).length + 1 < fuel →
      parseFieldsRest fuel (serializeFields fields ++ 125 :: rest)
        = some (fields, rest)) := by
  intro fuel
  induction fuel with
  | zero =>
      exact ⟨fun v rest h _ => absurd h (Nat.not_lt_zero _),
        fun i r _ h => absurd h (Nat.not_lt_zero _),
        fun fl r _ h => absurd h (Nat.not_lt_zero _)⟩
  | succ f ih =>
      obtain ⟨ihA, ihB, ihC⟩ := ih
      refine ⟨?_, ?_, ?_⟩
      · intro v rest hlen hrest
        cases v with
        | null =>
            rw [show serializeJson Json.null ++ rest
              = 110 :: 117 :: 108 :: 108 :: rest from rfl, parseVal.eq_def]
            dsimp only
            rw [List.dropWhile_cons, if_neg (by decide)]
            dsimp only
            rw [if_pos rfl]
        | bool b =>
            cases b with
            | true =>
                rw [show serializeJson (Json.bool true) ++ rest
                  = 116 :: 114 :: 117 :: 101 :: rest from rfl, parseVal.eq_def]
                dsimp only
                rw [List.dropWhile_cons, if_neg (by decide)]
                dsimp only
                rw [if_neg (by decide), if_pos rfl]
            | false =>
                rw [show serializeJson (Json.bool false) ++ rest
                  = 102 :: 97 :: 108 :: 115 :: 101 :: rest from rfl, parseVal.eq_def]
                dsimp only
                rw [List.dropWhile_cons, if_neg (by decide)]
                dsimp only
                rw [if_neg (by decide), if_neg (by decide), if_pos rfl]
        | num n =>
            cases n with
            | ofNat m =>
                obtain ⟨hd, tl, hser, h48, h57⟩ := natDecimalBytes_head_cases m
                rw [show serializeJson (Json.num (Int.ofNat m))
                  = natDecimalBytes m from rfl, hser, List.cons_append,
                  parseVal.eq_def]
                dsimp only
                rw [List.dropWhile_cons,
                  if_neg (by simp only [isWsByte, decide_eq_true_eq]; omega)]
                dsimp only
                rw [if_neg (by omega), if_neg (by omega), if_neg (by omega),
                  if_neg (by omega), if_neg (by omega), if_neg (by omega),
                  if_neg (by omega),
                  if_pos (by simp only [isDigitByte, decide_eq_true_eq]; omega)]
                rw [show hd :: (tl ++ rest) = natDecimalBytes m ++ rest from by
                  rw [hser, List.cons_append]]
                rw [parseNat_natDecimalBytes m rest hrest]
                rfl
            | negSucc m =>
                rw [show serializeJson (Json.num (Int.negSucc m)) ++ rest
                  = 45 :: (natDecimalBytes (m + 1) ++ rest) from by
                    rw [show serializeJson (Json.num (Int.negSucc m))
                      = 45 :: natDecimalBytes (m + 1) from rfl, List.cons_append],
                  parseVal.eq_def]
                dsimp only
                rw [List.dropWhile_cons, if_neg (by decide)]
                dsimp only
                rw [if_neg (by decide), if_neg (by decide), if_neg (by decide),
                  if_neg (by decide), if_neg (by decide), if_neg (by decide),
                  if_pos rfl]
                rw [parseNat_natDecimalBytes (m + 1) rest hrest]
                rfl
        | str s =>
            rw [show serializeJson (Json.str s) ++ rest
              = 34 :: (s.flatMap escapeStringByte ++ 34 :: rest) from by
                rw [show serializeJson (Json.str s)
                  = 34 :: (s.flatMap escapeStringByte ++ [34]) from rfl,
                  List.cons_append, List.append_assoc]
                rfl,
              parseVal.eq_def]
            dsimp only
            rw [List.dropWhile_cons, if_neg (by decide)]
            dsimp only
            rw [if_neg (by decide), if_neg (by decide), if_neg (by decide),
              if_pos rfl, parseStringBody_serialize s rest]
            rfl
        | arr items =>
            cases items with
            | nil =>
                rw [show serializeJson (Json.arr []) ++ rest = 91 :: 93 :: rest
                  from rfl, parseVal.eq_def]
                dsimp only
                rw [List.dropWhile_cons, if_neg (by decide)]
                dsimp only
                rw [if_neg (by decide), if_neg (by decide), if_neg (by decide),
                  if_neg (by decide), if_pos rfl, List.dropWhile_cons,
                  if_neg (by decide)]
                dsimp only
                rw [if_pos rfl]
            | cons x xs =>
                obtain ⟨t, ht⟩ := serializeItems_head x xs
                obtain ⟨hd, tl, hx, hws, h93, _⟩ := serializeJson_head_cases x
                have hform : serializeItems (x :: xs) ++ 93 :: rest
                    = hd :: (tl ++ (t ++ 93 :: rest)) := by
                  rw [ht, hx]
                  simp [List.append_assoc]
                rw [show serializeJson (Json.arr (x :: xs)) ++ rest
                  = 91 :: (serializeItems (x :: xs) ++ 93 :: rest) from by
                    rw [show serializeJson (Json.arr (x :: xs))
                      = 91 :: (serializeItems (x :: xs) ++ [93]) from rfl,
                      List.cons_append, List.append_assoc]
                    rfl,
                  parseVal.eq_def]
                dsimp only
                rw [List.dropWhile_cons, if_neg (by decide)]
                dsimp only
                rw [if_neg (by decide), if_neg (by decide), if_neg (by decide),
                  if_neg (by decide), if_pos rfl, hform, List.dropWhile_cons,
                  if_neg (by simp [hws])]
                dsimp only
                rw [if_neg h93, ← hform,
                  ihB (x :: xs) rest (by simp) (by
                    rw [show serializeJson (Json.arr (x :: xs))
                      = 91 :: (serializeItems (x :: xs) ++ [93]) from rfl] at hlen
                    simp only [List.length_cons, List.length_append,
                      List.length_singleton] at hlen
                    omega)]
                rfl
        | obj fields =>
            cases fields with
            | nil =>
                rw [show serializeJson (Json.obj []) ++ rest = 123 :: 125 :: rest
                  from rfl, parseVal.eq_def]
                dsimp only
                rw [List.dropWhile_cons, if_neg (by decide)]
                dsimp only
                rw [if_neg (by decide), if_neg (by decide), if_neg (by decide),
                  if_neg (by decide), if_neg (by decide), if_pos rfl,
                  List.dropWhile_cons, if_neg (by decide)]
                dsimp only
                rw [if_pos rfl]
            | cons kv fs =>
                obtain ⟨k, v0⟩ := kv
                have hform : serializeFields ((k, v0) :: fs) ++ 125 :: rest
                    = 34 :: ((k.flatMap escapeStringByte
                        ++ [34] ++ (58 :: serializeJson v0
                          ++ (match fs with
                              | [] => ([] : List Nat)
                              | g :: gs => 44 :: serializeFields (g :: gs))))
                      ++ 125 :: rest) := by
                  cases fs with
                  | nil =>
                      rw [serializeFields_singleton]
                      simp [serializeStrBytes, List.append_assoc]
                  | cons g gs =>
                      rw [serializeFields_cons₂]
                      simp [serializeStrBytes, List.append_assoc]
                rw [show serializeJson (Json.obj ((k, v0) :: fs)) ++ rest
                  = 123 :: (serializeFields ((k, v0) :: fs) ++ 125 :: rest) from by
                    rw [show serializeJson (Json.obj ((k, v0) :: fs))
                      = 123 :: (serializeFields ((k, v0) :: fs) ++ [125]) from rfl,
                      List.cons_append, List.append_assoc]
                    rfl,
                  parseVal.eq_def]
                dsimp only
                rw [List.dropWhile_cons, if_neg (by decide)]
                dsimp only
                rw [if_neg (by decide), if_neg (by decide), if_neg (by decide),
                  if_neg (by decide), if_neg (by decide), if_pos rfl, hform,
                  List.dropWhile_cons, if_neg (by decide)]
                dsimp only
                rw [if_neg (by decide), ← hform,
                  ihC ((k, v0) :: fs) rest (by simp) (by
                    rw [show serializeJson (Json.obj ((k, v0) :: fs))
                      = 123 :: (serializeFields ((k, v0) :: fs) ++ [125]) from rfl]
                      at hlen
                    simp only [List.length_cons, List.length_append,
                      List.length_singleton] at hlen
                    omega)]
                rfl
      · intro items rest hne hfuel
        cases items with
        | nil => exact absurd rfl hne
        | cons x xs =>
            rw [parseItemsRest.eq_def]
            dsimp only
            cases xs with
            | nil =>
                rw [show serializeItems [x] ++ 93 :: rest
                  = serializeJson x ++ 93 :: rest from by
                    rw [serializeItems_singleton]]
                rw [ihA x (93 :: rest) (by
                    rw [serializeItems_singleton] at hfuel
                    omega)
                  (by
                    intro b hb
                    rw [List.head?_cons] at hb
                    injection hb with hb'
                    subst hb'
                    decide)]
                dsimp only
                rw [List.dropWhile_cons, if_neg (by decide)]
            | cons y ys =>
                rw [show serializeItems (x :: y :: ys) ++ 93 :: rest
                  = serializeJson x ++ (44 :: (serializeItems (y :: ys)
                      ++ 93 :: rest)) from by
                    rw [serializeItems_cons₂, List.append_assoc]
                    rfl]
                rw [ihA x _ (by
                    rw [serializeItems_cons₂] at hfuel
                    simp only [List.length_append, List.length_cons] at hfuel
                    omega)
                  (by
                    intro b hb
                    rw [List.head?_cons] at hb
                    injection hb with hb'
                    subst hb'
                    decide)]
                dsimp only
                rw [List.dropWhile_cons, if_neg (by decide)]
                dsimp only
                rw [ihB (y :: ys) rest (by simp) (by
                  rw [serializeItems_cons₂] at hfuel
                  simp only [List.length_append, List.length_cons] at hfuel
                  omega)]
                rfl
      · intro fields rest hne hfuel
        cases fields with
        | nil => exact absurd rfl hne
        | cons kv fs =>
            obtain ⟨k, v0⟩ := kv
            rw [parseFieldsRest.eq_def]
            dsimp only
            cases fs with
            | nil =>
                rw [show serializeFields [(k, v0)] ++ 125 :: rest
                  = 34 :: (k.flatMap escapeStringByte
                      ++ 34 :: (58 :: (serializeJson v0 ++ 125 :: rest))) from by
                    rw [serializeFields_singleton]
                    simp [serializeStrBytes, List.append_assoc]]
                rw [List.dropWhile_cons, if_neg (by decide)]
                dsimp only
                rw [parseStringBody_serialize k (58 :: (serializeJson v0
                  ++ 125 :: rest))]
                dsimp only
                rw [List.dropWhile_cons, if_neg (by decide)]
                dsimp only
                rw [ihA v0 (125 :: rest) (by
                    rw [serializeFields_singleton] at hfuel
                    simp only [List.length_append, List.length_cons] at hfuel
                    omega)
                  (by
                    intro b hb
                    rw [List.head?_cons] at hb
                    injection hb with hb'
                    subst hb'
                    decide)]
                dsimp only
                rw [List.dropWhile_cons, if_neg (by decide)]
            | cons g gs =>
                rw [show serializeFields ((k, v0) :: g :: gs) ++ 125 :: rest
                  = 34 :: (k.flatMap escapeStringByte
                      ++ 34 :: (58 :: (serializeJson v0
                        ++ 44 :: (serializeFields (g :: gs) ++ 125 :: rest))))
                  from by
                    rw [serializeFields_cons₂]
                    simp [serializeStrBytes, List.append_assoc]]
                rw [List.dropWhile_cons, if_neg (by decide)]
                dsimp only
                rw [parseStringBody_serialize k (58 :: (serializeJson v0
                  ++ 44 :: (serializeFields (g :: gs) ++ 125 :: rest)))]
                dsimp only
                rw [List.dropWhile_cons, if_neg (by decide)]
                dsimp only
                rw [ihA v0 (44 :: (serializeFields (g :: gs) ++ 125 :: rest)) (by
                    rw [serializeFields_cons₂] at hfuel
                    simp only [List.length_append, List.length_cons] at hfuel
                    omega)
                  (by
                    intro b hb
                    rw [List.head?_cons] at hb
                    injection hb with hb'
                    subst hb'
                    decide)]
                dsimp only
                rw [List.dropWhile_cons, if_neg (by decide)]
                dsimp only
                rw [ihC (g :: gs) rest (by simp) (by
                  rw [serializeFields_cons₂] at hfuel
                  simp only [List.length_append, List.length_cons] at hfuel
                  omega)]
                rfl

/-- Byte-level JSON.parse inverts serialization. -/
theorem jsonParseBytes_serialize (v : Json) :
    jsonParseBytes (serializeJson v) = some v := by
  unfold jsonParseBytes
  have h := (parse_serialize_fuel ((serializeJson v).length + 1)).1 v []
    (by omega) (by intro b hb; simp at hb)
  rw [List.append_nil] at h
  rw [h]
  rfl

/-! ## Claim C2 -/

/-- C2: round trip of the decrypt pipeline against the matching encrypt
helper. For every JSON value whose string bytes are genuine bytes and
every security key string, decryptB64 followed by JSON.parse applied to
the base64-encoded AES-128-CBC/PKCS#7 encryption of the value under the
derived cipher key (used as both key and IV) returns the value. -/
theorem decryptPayloadPure_roundtrip (v : Json) (sec : String)
    (hw : BytesWf (serializeJson v)) :
    decryptPayloadPure (encryptPayload v sec) sec = .ok v := by
  unfold encryptPayload decryptPayloadPure
  rw [decryptB64_encryptB64 (serializeJson v) sec hw]
  dsimp only
  rw [jsonParseBytes_serialize]

/-- Closed instantiation of C2: the object with one field ok mapped to
true survives the round trip under the key c2Vr. -/
theorem decryptPayloadPure_roundtrip_witness :
    BytesWf (serializeJson (Json.obj [([111, 107], Json.bool true)]))
    ∧ decryptPayloadPure
        (encryptPayload (Json.obj [([111, 107], Json.bool true)]) "c2Vr") "c2Vr"
      = .ok (Json.obj [([111, 107], Json.bool true)]) :=
  ⟨by decide, decryptPayloadPure_roundtrip _ _ (by decide)⟩

/-! ## Claim C6: tampering with the ciphertext

Computations on the concrete tampering counterexample. bytesToBlocks is
the only definition in the pipeline not compiled by structural
recursion, so the two lemmas below unfold it; everything downstream of
it evaluates definitionally. -/

/-- Splitting sixteen bytes off the front of a byte list. -/
theorem bytesToBlocks_cons16
    (b0 b1 b2 b3 b4 b5 b6 b7 b8 b9 b10 b11 b12 b13 b14 b15 : Nat)
    (rest : List Nat) :
    bytesToBlocks (b0 :: b1 :: b2 :: b3 :: b4 :: b5 :: b6 :: b7 :: b8 :: b9 :: b10
        :: b11 :: b12 :: b13 :: b14 :: b15 :: rest)
      = toB16 [b0, b1, b2, b3, b4, b5, b6, b7, b8, b9, b10, b11, b12, b13, b14, b15]
        :: bytesToBlocks rest := by
  rw [bytesToBlocks, if_neg (by simp)]
  rfl

/-- Splitting no bytes. -/
theorem bytesToBlocks_nil : bytesToBlocks [] = [] := by
  rw [bytesToBlocks]
  rfl

set_option maxRecDepth 100000 in
set_option maxHeartbeats 4000000 in
/-- The concrete ciphertext of cexJson under the security key c2Vr. -/
theorem cexCt_bytes : cexCt = [119, 106, 209, 194, 154, 118, 22, 20, 169, 254, 32,
    165, 150, 229, 8, 65, 94, 141, 36, 218, 130, 250, 179, 89, 85, 134, 21, 84, 130,
    199, 244, 131, 202, 221, 172, 214, 26, 168, 216, 183, 159, 191, 1, 118, 14, 239,
    31, 130, 43, 101, 196, 0, 28, 174, 51, 130, 136, 108, 233, 148, 157, 79, 97, 50] := by
  rw [show cexCt = aesCbcEncryptBytes (deriveKeyFromSec "c2Vr") (deriveKeyFromSec "c2Vr")
    (serializeJson cexJson) from rfl]
  rw [aesCbcEncryptBytes]
  rw [show pkcs7Pad (serializeJson cexJson)
    = [123, 34, 109, 115, 103, 34, 58, 34, 65, 65, 65, 65, 65, 65, 65, 65, 65, 65, 65,
      65, 65, 65, 65, 65, 65, 65, 65, 65, 65, 65, 65, 65, 65, 65, 65, 65, 65, 65, 65,
      65, 65, 65, 65, 65, 65, 65, 65, 65, 65, 65, 65, 65, 65, 65, 65, 65, 65, 65, 65,
      65, 65, 34, 125, 1] from rfl]
  rw [bytesToBlocks_cons16, bytesToBlocks_cons16, bytesToBlocks_cons16,
    bytesToBlocks_cons16, bytesToBlocks_nil]
  rfl

set_option maxRecDepth 100000 in
set_option maxHeartbeats 8000000 in
/-- C6 counterexample: a single-byte modification of a genuine ciphertext
for which the decrypt pipeline neither raises a DecryptionError nor a
PayloadFormatError but successfully parses a silently wrong value. The
ciphertext is the encryption of cexJson under the key c2Vr; flipping the
low bit of its byte 21 (inside ciphertext block 1) garbles plaintext
block 1 — bytes that lie inside the msg string literal and happen to stay
legal there — and flips one byte of plaintext block 2 from A to the at
sign, so JSON.parse succeeds on the altered text and returns
cexGarbledJson, a value different from the original. -/
theorem tamper_silent_wrong_value :
    decryptBytesPipeline "c2Vr" cexCt = .ok cexJson
    ∧ decryptBytesPipeline "c2Vr" (flipByteAt cexCt 21 1) = .ok cexGarbledJson
    ∧ cexGarbledJson ≠ cexJson := by
  refine ⟨?_, ?_, fun h => absurd (congrArg serializeJson h) (by decide)⟩
  · rw [show cexCt = aesCbcEncryptBytes (deriveKeyFromSec "c2Vr")
      (deriveKeyFromSec "c2Vr") (serializeJson cexJson) from rfl,
      decryptBytesPipeline,
      aesCbcDecrypt_encrypt _ _ (deriveKeyFromSec_wf _) (by decide)]
    dsimp only
    rw [jsonParseBytes_serialize]
  · rw [cexCt_bytes,
      show flipByteAt [119, 106, 209, 194, 154, 118, 22, 20, 169, 254, 32,
        165, 150, 229, 8, 65, 94, 141, 36, 218, 130, 250, 179, 89, 85, 134, 21, 84, 130,
        199, 244, 131, 202, 221, 172, 214, 26, 168, 216, 183, 159, 191, 1, 118, 14, 239,
        31, 130, 43, 101, 196, 0, 28, 174, 51, 130, 136, 108, 233, 148, 157, 79, 97, 50]
        21 1
      = [119, 106, 209, 194, 154, 118, 22, 20, 169, 254, 32,
        165, 150, 229, 8, 65, 94, 141, 36, 218, 130, 251, 179, 89, 85, 134, 21, 84, 130,
        199, 244, 131, 202, 221, 172, 214, 26, 168, 216, 183, 159, 191, 1, 118, 14, 239,
        31, 130, 43, 101, 196, 0, 28, 174, 51, 130, 136, 108, 233, 148, 157, 79, 97, 50]
      from rfl,
      decryptBytesPipeline,
      show aesCbcDecryptBytes (deriveKeyFromSec "c2Vr") (deriveKeyFromSec "c2Vr")
        [119, 106, 209, 194, 154, 118, 22, 20, 169, 254, 32,
        165, 150, 229, 8, 65, 94, 141, 36, 218, 130, 251, 179, 89, 85, 134, 21, 84, 130,
        199, 244, 131, 202, 221, 172, 214, 26, 168, 216, 183, 159, 191, 1, 118, 14, 239,
        31, 130, 43, 101, 196, 0, 28, 174, 51, 130, 136, 108, 233, 148, 157, 79, 97, 50]
      = some (serializeJson cexGarbledJson) from by
        rw [aesCbcDecryptBytes, if_pos (by decide), bytesToBlocks_cons16,
          bytesToBlocks_cons16, bytesToBlocks_cons16, bytesToBlocks_cons16,
          bytesToBlocks_nil]
        rfl]
    dsimp only
    rw [jsonParseBytes_serialize]

/-- C6 (amended): what single-byte tampering can do. Flipping one byte
of a non-empty block-aligned ciphertext leaves it non-empty and
block-aligned, and running the decrypt pipeline on the tampered bytes
yields exactly one of three outcomes: a DecryptionError (the padding
check fails), a PayloadFormatError carrying the decrypted text (valid
padding, invalid JSON), or a successfully parsed value — which, as the
counterexample shows, may silently differ from the original plaintext.
No other error is reachable from this pipeline. -/
theorem tamper_outcomes (sec : String) (ct : List Nat) (i d : Nat)
    (hne : ct ≠ []) (hlen : ct.length % 16 = 0) :
    (flipByteAt ct i d ≠ [] ∧ (flipByteAt ct i d).length % 16 = 0)
    ∧ (decryptBytesPipeline sec (flipByteAt ct i d) = .error .decryptionError
      ∨ (∃ pt, decryptBytesPipeline sec (flipByteAt ct i d)
          = .error (.payloadFormatError pt))
      ∨ ∃ v, decryptBytesPipeline sec (flipByteAt ct i d) = .ok v) := by
  have hlen2 : (flipByteAt ct i d).length = ct.length := by
    simp [flipByteAt]
  refine ⟨⟨?_, by rw [hlen2]; exact hlen⟩, ?_⟩
  · intro hc
    apply hne
    rw [← List.length_eq_zero, ← hlen2, hc]
    rfl
  · cases hdec : aesCbcDecryptBytes (deriveKeyFromSec sec) (deriveKeyFromSec sec)
        (flipByteAt ct i d) with
    | none =>
        left
        rw [decryptBytesPipeline, hdec]
    | some pt =>
        cases hp : jsonParseBytes pt with
        | none =>
            right
            left
            exact ⟨pt, by rw [decryptBytesPipeline, hdec]; dsimp only; rw [hp]⟩
        | some v =>
            right
            right
            exact ⟨v, by rw [decryptBytesPipeline, hdec]; dsimp only; rw [hp]⟩

/-- Closed instantiation of the amended C6 at the all-zero one-block
ciphertext with its first byte flipped. -/
theorem tamper_outcomes_witness :
    (List.replicate 16 0 : List Nat) ≠ []
    ∧ (List.replicate 16 0 : List Nat).length % 16 = 0
    ∧ ((flipByteAt (List.replicate 16 0) 0 1 ≠ []
        ∧ (flipByteAt (List.replicate 16 0) 0 1).length % 16 = 0)
      ∧ (decryptBytesPipeline "c2Vr" (flipByteAt (List.replicate 16 0) 0 1)
          = .error .decryptionError
        ∨ (∃ pt, decryptBytesPipeline "c2Vr" (flipByteAt (List.replicate 16 0) 0 1)
            = .error (.payloadFormatError pt))
        ∨ ∃ v, decryptBytesPipeline "c2Vr" (flipByteAt (List.replicate 16 0) 0 1)
            = .ok v)) :=
  ⟨by decide, by decide,
    tamper_outcomes "c2Vr" (List.replicate 16 0) 0 1 (by decide) (by decide)⟩

/-! ## Claim C9 -/

/-- C9: when the caller supplies a truthy explicit key, decryptPayload
never consults the KeyStore: the call is the pure decrypt pipeline on the
supplied key, the cache is unchanged, and no network fetch occurs. -/
theorem decryptPayload_supplied_key_bypasses_keystore (ct s : String)
    (now : Int) (r : UpstreamResponse) (c : KeyCache) (hs : s ≠ "") :
    decryptPayload ct (some s) now r c = (decryptPayloadPure ct s, c, 0) := by
  unfold decryptPayload
  rw [if_pos (by simp [jsTruthy, hs])]
  rfl

/-- Closed instantiation of C9 at a concrete supplied key. -/
theorem decryptPayload_supplied_key_bypasses_keystore_witness :
    decryptPayload "QQ==" (some "c2Vr") 0 ⟨true, none⟩ initialCache
      = (decryptPayloadPure "QQ==" "c2Vr", initialCache, 0) :=
  decryptPayload_supplied_key_bypasses_keystore "QQ==" "c2Vr" 0 ⟨true, none⟩
    initialCache (by decide)

/-! ## Claim C10 -/

/-- C10: a supplied key equal to the empty string is falsy, so
decryptPayload treats it exactly like an absent key: the call behaves
identically to the no-key call, and its cache and fetch effects are
those of the fetchSecurityKey call it makes. -/
theorem decryptPayload_empty_key_consults_keystore (ct : String) (now : Int)
    (r : UpstreamResponse) (c : KeyCache) :
    decryptPayload ct (some "") now r c = decryptPayload ct none now r c
    ∧ (decryptPayload ct (some "") now r c).2.1 = (fetchSecurityKey now r c).cache
    ∧ (decryptPayload ct (some "") now r c).2.2 = (fetchSecurityKey now r c).fetches := by
  refine ⟨rfl, ?_, ?_⟩ <;>
    · unfold decryptPayload
      rw [if_neg (by simp [jsTruthy])]
      dsimp only
      cases hres : (fetchSecurityKey now r c).result with
      | ok k => simp
      | error e => cases e with | upstream p => simp

/-! ## Claim C4 -/

/-- C4: evaluation of the extractor at the input the claim's fallback
clause describes. The response has a non-JSON content type and the plain
text body xyz; the claim (and the spec) says the extractor returns the
trimmed raw text, but the source has already consumed the one-shot body
with response.json(), so response.text() throws the WHATWG TypeError
instead, and neither the raw-text fallback nor EmptyResponseError is
reachable. -/
theorem extractCipher_text_fallback_dead :
    extractCipherFromResponse ⟨some "text/plain", 200, "u", [120, 121, 122]⟩
      = .error .bodyUnusable
    ∧ trimBytes [120, 121, 122] = [120, 121, 122] := ⟨rfl, rfl⟩

/-! ## Claim C8 -/

/-- C8 counterexample: under a declared JSON content type with a
malformed body, the extractor does not fall back to the raw text — the
source calls response.json() without a try/catch there, so the parse
error propagates. -/
theorem extractCipher_json_ct_propagates :
    extractCipherFromResponse
      ⟨some "application/json", 200, "u", [110, 111, 116, 32, 106]⟩
      = .error .jsonParseFailure := rfl

/-- C8 amended: a JSON parse failure is swallowed only when the declared
content type does not indicate JSON — control then falls through toward
the raw-text fallback, which fails with the body-reuse TypeError because
response.json() already consumed the body; under a JSON content type the
parse error propagates. -/
theorem extractCipher_swallow_spec (r : HttpResponse) :
    (ctIncludesJson r = false → jsonParseBytes r.body = none →
        extractCipherFromResponse r = .error .bodyUnusable)
    ∧ (ctIncludesJson r = true → jsonParseBytes r.body = none →
        extractCipherFromResponse r = .error .jsonParseFailure) := by
  constructor <;> intro hct hp <;> unfold extractCipherFromResponse <;>
    simp [hct, hp]

/-- Closed instantiation of the amended C8 on both branches. -/
theorem extractCipher_swallow_spec_witness :
    extractCipherFromResponse ⟨some "text/plain", 200, "u", [110, 111, 116]⟩
      = .error .bodyUnusable
    ∧ extractCipherFromResponse ⟨some "application/json", 200, "u2", [33]⟩
      = .error .jsonParseFailure :=
  ⟨(extractCipher_swallow_spec ⟨some "text/plain", 200, "u", [110, 111, 116]⟩).1
      rfl rfl,
   (extractCipher_swallow_spec ⟨some "application/json", 200, "u2", [33]⟩).2
      rfl rfl⟩

end Castle
